import Mathlib

set_option autoImplicit false

/-!
Shallow embedding of `app.py` (streamlit-nautobot-argo-app): the YAML/JSON
value model, the topology-merge loop, the NautobotClient URL normalization
and HTTP response handling, the retry configuration, and the
`utils_load_nautobot_data` orchestrator, together with proofs about them.
-/

/-- YAML/JSON values as produced by `yaml.safe_load` and consumed by the
`requests` JSON encoder: null, booleans, strings, sequences, and
string-keyed mappings kept in document/insertion order. -/
inductive JVal where
  | jnull : JVal
  | jbool : Bool → JVal
  | jstr : String → JVal
  | jlist : List JVal → JVal
  | jmap : List (String × JVal) → JVal
deriving Repr

namespace PyDict

variable {α : Type}

/-- Python `k in d` on an insertion-ordered dict. -/
def containsKey (d : List (String × α)) (k : String) : Bool :=
  d.any (fun p => p.1 == k)

/-- Python `d.get(k)` / `d[k]`: the value stored at key `k`, if any. -/
def find? : List (String × α) → String → Option α
  | [], _ => none
  | p :: rest, k => if p.1 == k then some p.2 else find? rest k

/-- Python `d[k] = v`: replace the stored value in place when the key is
present, otherwise append the new pair at the end. -/
def setKey (d : List (String × α)) (k : String) (v : α) : List (String × α) :=
  if containsKey d k then d.map (fun p => if p.1 == k then (k, v) else p)
  else d ++ [(k, v)]

/-- Python `d.update(o)`: perform `d[k] = v` for the entries of `o` in order. -/
def update (d o : List (String × α)) : List (String × α) :=
  o.foldl (fun acc p => setKey acc p.1 p.2) d

/-- The keys of a dict, in insertion order. -/
def keys (d : List (String × α)) : List String := d.map Prod.fst

theorem containsKey_iff_mem_keys (d : List (String × α)) (k : String) :
    containsKey d k = true ↔ k ∈ keys d := by
  induction d with
  | nil => simp [containsKey, keys]
  | cons p rest ih =>
    simp only [containsKey, keys, List.any_cons, List.map_cons, List.mem_cons,
      Bool.or_eq_true, beq_iff_eq] at *
    constructor
    · rintro (h | h)
      · exact Or.inl h.symm
      · exact Or.inr (ih.mp h)
    · rintro (h | h)
      · exact Or.inl h.symm
      · exact Or.inr (ih.mpr h)

theorem find?_eq_none_of_not_mem_keys {d : List (String × α)} {k : String}
    (h : k ∉ keys d) : find? d k = none := by
  induction d with
  | nil => rfl
  | cons p rest ih =>
    simp only [keys, List.map_cons, List.mem_cons, not_or] at h
    simp only [find?, beq_iff_eq]
    rw [if_neg (fun hc => h.1 hc.symm)]
    exact ih h.2

theorem mem_keys_of_find?_eq_some {d : List (String × α)} {k : String} {v : α}
    (h : find? d k = some v) : k ∈ keys d := by
  by_contra hk
  rw [find?_eq_none_of_not_mem_keys hk] at h
  exact Option.noConfusion h

theorem containsKey_eq_true_of_find? {d : List (String × α)} {k : String} {v : α}
    (h : find? d k = some v) : containsKey d k = true :=
  (containsKey_iff_mem_keys d k).mpr (mem_keys_of_find?_eq_some h)

/-- Replacing the value stored under `k` in place keeps the key list. -/
theorem keys_replaceMap (d : List (String × α)) (k : String) (v : α) :
    keys (d.map (fun p => if p.1 == k then (k, v) else p)) = keys d := by
  induction d with
  | nil => rfl
  | cons p rest ih =>
    simp only [List.map_cons, keys] at *
    by_cases hp : p.1 == k
    · rw [if_pos hp, show p.1 = k from beq_iff_eq.mp hp]
      simp only [List.map_cons]
      exact congrArg (k :: ·) ih
    · rw [if_neg hp]
      exact congrArg (p.1 :: ·) ih

theorem find?_replaceMap_self (d : List (String × α)) (k : String) (v : α) :
    find? (d.map (fun p => if p.1 == k then (k, v) else p)) k
      = (find? d k).map (fun _ => v) := by
  induction d with
  | nil => rfl
  | cons p rest ih =>
    by_cases hp : p.1 == k
    · simp [find?, hp]
    · have hp' : ¬ p.1 = k := fun he => hp (beq_iff_eq.mpr he)
      simpa [find?, hp'] using ih

theorem find?_replaceMap_ne (d : List (String × α)) {k k2 : String} (v : α)
    (hne : k ≠ k2) :
    find? (d.map (fun p => if p.1 == k then (k, v) else p)) k2 = find? d k2 := by
  induction d with
  | nil => rfl
  | cons p rest ih =>
    by_cases hp : p.1 == k
    · have hpk : p.1 = k := beq_iff_eq.mp hp
      have h1 : ((k, v).1 == k2) = false := beq_eq_false_iff_ne.mpr hne
      have h2 : (p.1 == k2) = false := beq_eq_false_iff_ne.mpr (hpk ▸ hne)
      simp only [List.map_cons, if_pos hp, find?, h1, h2]
      simpa using ih
    · simp only [List.map_cons, if_neg hp, find?]
      by_cases hq : p.1 == k2
      · rw [if_pos hq, if_pos hq]
      · rw [if_neg hq, if_neg hq]
        exact ih

theorem find?_append_singleton_ne (d : List (String × α)) {k k2 : String} (v : α)
    (hne : k ≠ k2) : find? (d ++ [(k, v)]) k2 = find? d k2 := by
  induction d with
  | nil =>
    simp only [List.nil_append, find?]
    rw [show ((k, v).1 == k2) = false from beq_eq_false_iff_ne.mpr hne]
    simp [find?]
  | cons p rest ih =>
    simp only [List.cons_append, find?]
    by_cases hq : p.1 == k2
    · rw [if_pos hq, if_pos hq]
    · rw [if_neg hq, if_neg hq]
      exact ih

theorem exists_find?_of_mem_keys {d : List (String × α)} {k : String}
    (h : k ∈ keys d) : ∃ v, find? d k = some v := by
  induction d with
  | nil => simp [keys] at h
  | cons p rest ih =>
    by_cases hp : p.1 == k
    · exact ⟨p.2, by simp [find?, hp]⟩
    · have hp' : ¬ p.1 = k := fun he => hp (beq_iff_eq.mpr he)
      simp only [keys, List.map_cons, List.mem_cons] at h
      rcases h with h | h
      · exact absurd h.symm hp'
      · rcases ih h with ⟨v, hv⟩
        exact ⟨v, by simp [find?, hp, hv]⟩

theorem find?_eq_none_iff {d : List (String × α)} {k : String} :
    find? d k = none ↔ k ∉ keys d := by
  constructor
  · intro h hk
    rcases exists_find?_of_mem_keys hk with ⟨v, hv⟩
    rw [h] at hv
    exact Option.noConfusion hv
  · exact find?_eq_none_of_not_mem_keys

theorem containsKey_eq_of_keys_eq {β : Type} {d : List (String × α)}
    {d2 : List (String × β)} (h : keys d = keys d2) (k : String) :
    containsKey d k = containsKey d2 k := by
  rw [Bool.eq_iff_iff, containsKey_iff_mem_keys, containsKey_iff_mem_keys, h]

theorem keys_setKey_of_contains {d : List (String × α)} {k : String} (v : α)
    (h : containsKey d k = true) : keys (setKey d k v) = keys d := by
  unfold setKey
  rw [if_pos h]
  exact keys_replaceMap d k v

theorem find?_append_singleton_self (d : List (String × α)) {k : String} (v : α)
    (h : ¬ containsKey d k = true) : find? (d ++ [(k, v)]) k = some v := by
  induction d with
  | nil => simp [find?]
  | cons p rest ih =>
    simp only [containsKey, List.any_cons, Bool.or_eq_true, not_or] at h
    simp only [List.cons_append, find?]
    rw [if_neg (by simpa using h.1)]
    exact ih (by simpa [containsKey] using h.2)

theorem find?_setKey_self (d : List (String × α)) (k : String) (v : α) :
    find? (setKey d k v) k = some v := by
  unfold setKey
  by_cases h : containsKey d k
  · rw [if_pos h, find?_replaceMap_self d k v]
    rcases exists_find?_of_mem_keys ((containsKey_iff_mem_keys d k).mp h) with ⟨w, hw⟩
    rw [hw]
    rfl
  · rw [if_neg h]
    exact find?_append_singleton_self d v h

theorem find?_setKey_ne {d : List (String × α)} {k k2 : String} (v : α)
    (hne : k ≠ k2) : find? (setKey d k v) k2 = find? d k2 := by
  unfold setKey
  by_cases h : containsKey d k
  · rw [if_pos h]
    exact find?_replaceMap_ne d v hne
  · rw [if_neg h]
    exact find?_append_singleton_ne d v hne

theorem find?_update_not_mem {k : String} :
    ∀ (o d : List (String × α)), k ∉ keys o → find? (update d o) k = find? d k
  | [], _, _ => rfl
  | p :: rest, d, h => by
    simp only [keys, List.map_cons, List.mem_cons, not_or] at h
    have hstep : update d (p :: rest) = update (setKey d p.1 p.2) rest := rfl
    rw [hstep, find?_update_not_mem rest (setKey d p.1 p.2) h.2,
      find?_setKey_ne p.2 (fun he => h.1 he.symm)]

theorem list_map_id_of {β : Type} {l : List β} {f : β → β}
    (h : ∀ a ∈ l, f a = a) : l.map f = l := by
  induction l with
  | nil => rfl
  | cons a rest ih =>
    simp only [List.map_cons]
    rw [h a (List.mem_cons_self a rest),
      ih (fun b hb => h b (List.mem_cons_of_mem a hb))]

/-- All entries of `d` carrying key `k` are exactly the pair `(k, v)`. -/
def entriesAt (d : List (String × α)) (k : String) (v : α) : Prop :=
  ∀ p ∈ d, p.1 = k → p = (k, v)

theorem setKey_eq_self {d : List (String × α)} {k : String} {v : α}
    (hmem : containsKey d k = true) (hall : entriesAt d k v) : setKey d k v = d := by
  unfold setKey
  rw [if_pos hmem]
  apply list_map_id_of
  intro p hp
  by_cases hc : p.1 == k
  · rw [if_pos hc]
    exact (hall p hp (beq_iff_eq.mp hc)).symm
  · rw [if_neg hc]

theorem entriesAt_setKey_self (d : List (String × α)) (k : String) (v : α) :
    entriesAt (setKey d k v) k v := by
  unfold setKey
  by_cases h : containsKey d k
  · rw [if_pos h]
    intro p hp hk
    rcases List.mem_map.mp hp with ⟨q, hq, hfq⟩
    by_cases hc : q.1 == k
    · rw [if_pos hc] at hfq
      exact hfq.symm
    · rw [if_neg hc] at hfq
      subst hfq
      exact absurd (beq_iff_eq.mpr hk) hc
  · rw [if_neg h]
    intro p hp hk
    rcases List.mem_append.mp hp with hq | hq
    · exact absurd ((containsKey_iff_mem_keys d k).mpr
        (List.mem_map.mpr ⟨p, hq, hk⟩)) h
    · simpa using hq

theorem entriesAt_setKey_ne {d : List (String × α)} {k k0 : String} {v : α} (v0 : α)
    (hne : k0 ≠ k) (hall : entriesAt d k v) : entriesAt (setKey d k0 v0) k v := by
  unfold setKey
  by_cases h : containsKey d k0
  · rw [if_pos h]
    intro p hp hk
    rcases List.mem_map.mp hp with ⟨q, hq, hfq⟩
    by_cases hc : q.1 == k0
    · rw [if_pos hc] at hfq
      subst hfq
      exact absurd hk hne
    · rw [if_neg hc] at hfq
      subst hfq
      exact hall q hq hk
  · rw [if_neg h]
    intro p hp hk
    rcases List.mem_append.mp hp with hq | hq
    · exact hall p hq hk
    · have : p = (k0, v0) := by simpa using hq
      subst this
      exact absurd hk hne

theorem mem_keys_setKey_self (d : List (String × α)) (k : String) (v : α) :
    k ∈ keys (setKey d k v) := by
  unfold setKey
  by_cases h : containsKey d k
  · rw [if_pos h]
    show k ∈ keys (d.map fun p => if p.1 == k then (k, v) else p)
    rw [keys_replaceMap]
    exact (containsKey_iff_mem_keys d k).mp h
  · rw [if_neg h]
    simp [keys]

theorem mem_keys_setKey_mono {d : List (String × α)} {k : String} (k0 : String)
    (v0 : α) (h : k ∈ keys d) : k ∈ keys (setKey d k0 v0) := by
  unfold setKey
  by_cases hc : containsKey d k0
  · rw [if_pos hc]
    show k ∈ keys (d.map fun p => if p.1 == k0 then (k0, v0) else p)
    rwa [keys_replaceMap]
  · rw [if_neg hc]
    simp only [keys, List.map_append, List.mem_append]
    exact Or.inl h

theorem entriesAt_update_not_mem {k : String} {v : α} :
    ∀ (o d : List (String × α)), k ∉ keys o → entriesAt d k v →
      entriesAt (update d o) k v
  | [], _, _, h => h
  | p :: rest, d, hno, h => by
    simp only [keys, List.map_cons, List.mem_cons, not_or] at hno
    exact entriesAt_update_not_mem rest (setKey d p.1 p.2) hno.2
      (entriesAt_setKey_ne p.2 (fun he => hno.1 he.symm) h)

theorem mem_keys_update_mono {k : String} :
    ∀ (o d : List (String × α)), k ∈ keys d → k ∈ keys (update d o)
  | [], _, h => h
  | p :: rest, d, h =>
    mem_keys_update_mono rest (setKey d p.1 p.2) (mem_keys_setKey_mono p.1 p.2 h)

theorem update_idem : ∀ {o : List (String × α)}, (keys o).Nodup →
    ∀ d, update (update d o) o = update d o := by
  intro o
  induction o with
  | nil =>
    intro _ d
    rfl
  | cons p rest ih =>
    intro ho d
    simp only [keys, List.map_cons, List.nodup_cons] at ho
    show update (setKey (update (setKey d p.1 p.2) rest) p.1 p.2) rest
      = update (setKey d p.1 p.2) rest
    have hD : setKey (update (setKey d p.1 p.2) rest) p.1 p.2
        = update (setKey d p.1 p.2) rest := by
      apply setKey_eq_self
      · rw [containsKey_iff_mem_keys]
        exact mem_keys_update_mono rest _ (mem_keys_setKey_self d p.1 p.2)
      · exact entriesAt_update_not_mem rest (setKey d p.1 p.2) ho.1
          (entriesAt_setKey_self d p.1 p.2)
    rw [hD]
    exact ih ho.2 (setKey d p.1 p.2)

theorem find?_eq_of_mem_nodup {d : List (String × α)} (hd : (keys d).Nodup)
    {p : String × α} (hp : p ∈ d) : find? d p.1 = some p.2 := by
  induction d with
  | nil => exact absurd hp (List.not_mem_nil _)
  | cons q rest ih =>
    simp only [keys, List.map_cons, List.nodup_cons] at hd
    rcases List.mem_cons.mp hp with heq | hmem
    · subst heq
      simp [find?]
    · have hne : ¬ q.1 = p.1 := fun he =>
        hd.1 (he ▸ List.mem_map.mpr ⟨p, hmem, rfl⟩)
      simp only [find?]
      rw [if_neg (fun hb => hne (beq_iff_eq.mp hb))]
      exact ih hd.2 hmem

theorem find?_update_mem {o : List (String × α)} (ho : (keys o).Nodup) :
    ∀ {k : String} {w : α}, find? o k = some w → ∀ d, find? (update d o) k = some w := by
  induction o with
  | nil => intro k w h; exact absurd h (by simp [find?])
  | cons p rest ih =>
    intro k w h d
    have hstep : update d (p :: rest) = update (setKey d p.1 p.2) rest := rfl
    simp only [keys, List.map_cons, List.nodup_cons] at ho
    by_cases hp : p.1 == k
    · have hpk : p.1 = k := beq_iff_eq.mp hp
      have hw : p.2 = w := by simpa [find?, hp] using h
      rw [hstep, find?_update_not_mem rest (setKey d p.1 p.2) (hpk ▸ ho.1), ← hpk,
        find?_setKey_self d p.1 p.2, hw]
    · have hrest : find? rest k = some w := by simpa [find?, hp] using h
      rw [hstep]
      exact ih ho.2 hrest (setKey d p.1 p.2)

end PyDict

theorem string_append_left_inj (s : String) {a b : String} (h : s ++ a = s ++ b) :
    a = b := by
  have hd : s.data ++ a.data = s.data ++ b.data := by
    simpa using congrArg String.data h
  exact String.ext (List.append_cancel_left hd)

theorem string_append_right_inj (s : String) {a b : String} (h : a ++ s = b ++ s) :
    a = b := by
  have hd : a.data ++ s.data = b.data ++ s.data := by
    simpa using congrArg String.data h
  exact String.ext (List.append_cancel_right hd)

/-- One per-node record of a topology document: a YAML mapping from field
names to values. -/
abbrev NodeRec := List (String × JVal)

/-- The warning line logged at app.py line 152 for an override key with no
matching node in the primary topology. -/
def warnMsg (k : String) : String := "Key " ++ k ++ " not found in topology_dict"

/-- In-place `topology_dict["topology"]["nodes"][key].update(value)` from
app.py line 150: the record stored at `k` is shallow-merged with `v`. -/
def adjustNode (t : List (String × NodeRec)) (k : String) (v : NodeRec) :
    List (String × NodeRec) :=
  t.map (fun p => if p.1 == k then (p.1, PyDict.update p.2 v) else p)

/-- The merge loop of app.py lines 148-152: walk the overrides document's
`nodes` mapping in order; a key present in the primary topology's node
mapping gets its record updated in place, an absent key produces one
warning line and is skipped. Returns the resulting node mapping and the
warning lines in emission order. -/
def mergeNodes (t : List (String × NodeRec)) :
    List (String × NodeRec) → List (String × NodeRec) × List String
  | [] => (t, [])
  | (k, v) :: rest =>
    if PyDict.containsKey t k then
      mergeNodes (adjustNode t k v) rest
    else
      let r := mergeNodes t rest
      (r.1, warnMsg k :: r.2)

theorem warnMsg_inj {k k2 : String} (h : warnMsg k = warnMsg k2) : k = k2 := by
  unfold warnMsg at h
  exact string_append_left_inj "Key "
    (string_append_right_inj " not found in topology_dict" h)

theorem keys_adjustNode (t : List (String × NodeRec)) (k : String) (v : NodeRec) :
    PyDict.keys (adjustNode t k v) = PyDict.keys t := by
  induction t with
  | nil => rfl
  | cons p rest ih =>
    simp only [adjustNode, List.map_cons, PyDict.keys] at *
    by_cases hp : p.1 == k
    · rw [if_pos hp]
      exact congrArg (p.1 :: ·) ih
    · rw [if_neg hp]
      exact congrArg (p.1 :: ·) ih

theorem find?_adjustNode_self (t : List (String × NodeRec)) (k : String) (v : NodeRec) :
    PyDict.find? (adjustNode t k v) k
      = (PyDict.find? t k).map (fun r => PyDict.update r v) := by
  induction t with
  | nil => rfl
  | cons p rest ih =>
    by_cases hp : p.1 == k
    · simp [adjustNode, PyDict.find?, hp]
    · have hp' : ¬ p.1 = k := fun he => hp (beq_iff_eq.mpr he)
      simpa [adjustNode, PyDict.find?, hp'] using ih

theorem find?_adjustNode_ne (t : List (String × NodeRec)) {k k2 : String} (v : NodeRec)
    (hne : k ≠ k2) : PyDict.find? (adjustNode t k v) k2 = PyDict.find? t k2 := by
  induction t with
  | nil => rfl
  | cons p rest ih =>
    by_cases hp : p.1 == k
    · have hpk : p.1 = k := beq_iff_eq.mp hp
      have h2 : ¬ p.1 = k2 := by rw [hpk]; exact hne
      simpa [adjustNode, PyDict.find?, hp, h2] using ih
    · simp only [adjustNode, List.map_cons, if_neg hp, PyDict.find?]
      by_cases hq : p.1 == k2
      · rw [if_pos hq, if_pos hq]
      · rw [if_neg hq, if_neg hq]
        exact ih

theorem keys_mergeNodes (t o : List (String × NodeRec)) :
    PyDict.keys (mergeNodes t o).1 = PyDict.keys t := by
  induction o generalizing t with
  | nil => rfl
  | cons p rest ih =>
    rcases p with ⟨k, v⟩
    by_cases hc : PyDict.containsKey t k
    · simp only [mergeNodes, if_pos hc]
      rw [ih (adjustNode t k v), keys_adjustNode]
    · simp only [mergeNodes, if_neg hc]
      exact ih t

theorem find?_mergeNodes_not_mem {k : String} :
    ∀ (o t : List (String × NodeRec)), k ∉ PyDict.keys o →
      PyDict.find? (mergeNodes t o).1 k = PyDict.find? t k
  | [], _, _ => rfl
  | (k0, v0) :: rest, t, h => by
    simp only [PyDict.keys, List.map_cons, List.mem_cons, not_or] at h
    by_cases hc : PyDict.containsKey t k0
    · simp only [mergeNodes, if_pos hc]
      rw [find?_mergeNodes_not_mem rest (adjustNode t k0 v0) h.2,
        find?_adjustNode_ne t v0 (fun he => h.1 he.symm)]
    · simp only [mergeNodes, if_neg hc]
      exact find?_mergeNodes_not_mem rest t h.2

theorem mergeNodes_warnings (o : List (String × NodeRec)) :
    ∀ t, (mergeNodes t o).2
      = (o.filter (fun p => !PyDict.containsKey t p.1)).map (fun p => warnMsg p.1) := by
  induction o with
  | nil => intro t; rfl
  | cons p rest ih =>
    intro t
    rcases p with ⟨k, v⟩
    by_cases hc : PyDict.containsKey t k
    · simp only [mergeNodes, if_pos hc]
      rw [ih (adjustNode t k v)]
      have hfilter : rest.filter (fun p => !PyDict.containsKey (adjustNode t k v) p.1)
          = rest.filter (fun p => !PyDict.containsKey t p.1) := by
        apply List.filter_congr
        intro q _
        rw [PyDict.containsKey_eq_of_keys_eq (keys_adjustNode t k v)]
      rw [hfilter, List.filter_cons]
      have hck : (!PyDict.containsKey t (k, v).1) = false := by simp [hc]
      rw [hck]
      simp
    · simp only [mergeNodes, if_neg hc]
      rw [ih t, List.filter_cons]
      have hck : (!PyDict.containsKey t (k, v).1) = true := by simp [hc]
      rw [hck]
      simp

theorem find?_mergeNodes_matched (o : List (String × NodeRec))
    (ho : (PyDict.keys o).Nodup) :
    ∀ {k : String} {v : NodeRec}, (k, v) ∈ o →
      ∀ (t : List (String × NodeRec)) {r : NodeRec}, PyDict.find? t k = some r →
      PyDict.find? (mergeNodes t o).1 k = some (PyDict.update r v) := by
  induction o with
  | nil =>
    intro k v hm
    exact absurd hm (List.not_mem_nil _)
  | cons p rest ih =>
    intro k v hm t r hr
    rcases p with ⟨k0, v0⟩
    simp only [PyDict.keys, List.map_cons, List.nodup_cons] at ho
    rcases List.mem_cons.mp hm with heq | hmem
    · injection heq with hk hv
      subst hk
      subst hv
      have hc : PyDict.containsKey t k = true := PyDict.containsKey_eq_true_of_find? hr
      simp only [mergeNodes, if_pos hc]
      rw [find?_mergeNodes_not_mem rest (adjustNode t k v) ho.1,
        find?_adjustNode_self, hr]
      rfl
    · have hkne : k0 ≠ k := fun he =>
        ho.1 (he ▸ (List.mem_map.mpr ⟨(k, v), hmem, rfl⟩))
      by_cases hc : PyDict.containsKey t k0
      · simp only [mergeNodes, if_pos hc]
        exact ih ho.2 hmem (adjustNode t k0 v0)
          (by rw [find?_adjustNode_ne t v0 hkne]; exact hr)
      · simp only [mergeNodes, if_neg hc]
        exact ih ho.2 hmem t hr

theorem mergeNodes_warn_count (t o : List (String × NodeRec))
    (ho : (PyDict.keys o).Nodup) {k : String} {v : NodeRec}
    (hm : (k, v) ∈ o) (hc : PyDict.containsKey t k = false) :
    (mergeNodes t o).2.count (warnMsg k) = 1 := by
  rw [mergeNodes_warnings o t]
  induction o with
  | nil => exact absurd hm (List.not_mem_nil _)
  | cons p rest ih =>
    rcases p with ⟨k0, v0⟩
    simp only [PyDict.keys, List.map_cons, List.nodup_cons] at ho
    rcases List.mem_cons.mp hm with heq | hmem
    · injection heq with hk hv
      subst hk
      subst hv
      rw [List.filter_cons]
      have hck : (!PyDict.containsKey t (k, v).1) = true := by simp [hc]
      rw [hck]
      simp only [if_true, List.map_cons, List.count_cons_self]
      have hz : ((rest.filter (fun p => !PyDict.containsKey t p.1)).map
          (fun p => warnMsg p.1)).count (warnMsg k) = 0 := by
        rw [List.count_eq_zero]
        intro hmem2
        rcases List.mem_map.mp hmem2 with ⟨q, hq, hwq⟩
        exact ho.1 (warnMsg_inj hwq ▸
          List.mem_map.mpr ⟨q, List.mem_of_mem_filter hq, rfl⟩)
      rw [hz]
    · have hkne : k0 ≠ k := fun he =>
        ho.1 (he ▸ (List.mem_map.mpr ⟨(k, v), hmem, rfl⟩))
      rw [List.filter_cons]
      cases hck : (!PyDict.containsKey t (k0, v0).1)
      · simp only [Bool.false_eq_true, if_false]
        exact ih ho.2 hmem
      · simp only [if_true, List.map_cons]
        rw [List.count_cons_of_ne (fun he => hkne (warnMsg_inj he.symm))]
        exact ih ho.2 hmem

/-- C1: for every node key in the overrides document's node mapping, a key
that exists in the primary topology's node mapping gets the override's
fields shallow-merged into its record with the override winning on key
collision; an unmatched key produces exactly one warning line naming it
and is skipped, so the effective node-key set equals the primary
topology's node-key set. -/
theorem merge_override_semantics (t o : List (String × NodeRec))
    (ho : (PyDict.keys o).Nodup)
    (hov : ∀ p ∈ o, (PyDict.keys p.2).Nodup) :
    PyDict.keys (mergeNodes t o).1 = PyDict.keys t ∧
    ∀ k v, (k, v) ∈ o →
      (∀ r, PyDict.find? t k = some r →
        PyDict.find? (mergeNodes t o).1 k = some (PyDict.update r v) ∧
        ∀ f w, PyDict.find? v f = some w →
          PyDict.find? (PyDict.update r v) f = some w) ∧
      (PyDict.find? t k = none →
        (mergeNodes t o).2.count (warnMsg k) = 1 ∧
        PyDict.find? (mergeNodes t o).1 k = none) := by
  refine ⟨keys_mergeNodes t o, ?_⟩
  intro k v hm
  constructor
  · intro r hr
    refine ⟨find?_mergeNodes_matched o ho hm t hr, ?_⟩
    intro f w hw
    exact PyDict.find?_update_mem (hov (k, v) hm) hw r
  · intro hr
    have hc : PyDict.containsKey t k = false := by
      cases hcc : PyDict.containsKey t k
      · rfl
      · rcases PyDict.exists_find?_of_mem_keys
          ((PyDict.containsKey_iff_mem_keys t k).mp hcc) with ⟨w, hw⟩
        rw [hr] at hw
        exact Option.noConfusion hw
    refine ⟨mergeNodes_warn_count t o ho hm hc, ?_⟩
    rw [PyDict.find?_eq_none_iff] at hr ⊢
    rw [keys_mergeNodes]
    exact hr

/-- Concrete primary topology node mapping used by witnesses. -/
def mergeTEx : List (String × NodeRec) :=
  [("ceos-01", [("kind", JVal.jstr "ceos"), ("mgmt-ipv4", JVal.jstr "172.20.20.2")])]

/-- Concrete overrides node mapping used by witnesses: one matched key and
one unmatched key. -/
def mergeOEx : List (String × NodeRec) :=
  [("ceos-01", [("kind", JVal.jstr "srl")]),
   ("ceos-99", [("mgmt-ipv4", JVal.jstr "172.20.20.9")])]

/-- Witness for merge_override_semantics at concrete inputs. -/
theorem merge_override_semantics_witness :
    ((PyDict.keys mergeOEx).Nodup ∧ ∀ p ∈ mergeOEx, (PyDict.keys p.2).Nodup) ∧
    (PyDict.keys (mergeNodes mergeTEx mergeOEx).1 = PyDict.keys mergeTEx ∧
    ∀ k v, (k, v) ∈ mergeOEx →
      (∀ r, PyDict.find? mergeTEx k = some r →
        PyDict.find? (mergeNodes mergeTEx mergeOEx).1 k = some (PyDict.update r v) ∧
        ∀ f w, PyDict.find? v f = some w →
          PyDict.find? (PyDict.update r v) f = some w) ∧
      (PyDict.find? mergeTEx k = none →
        (mergeNodes mergeTEx mergeOEx).2.count (warnMsg k) = 1 ∧
        PyDict.find? (mergeNodes mergeTEx mergeOEx).1 k = none)) :=
  ⟨⟨by decide, by decide⟩,
    merge_override_semantics mergeTEx mergeOEx (by decide) (by decide)⟩

theorem adjustNode_eq_self {t2 : List (String × NodeRec)} {k : String}
    {v : NodeRec} (hnt : (PyDict.keys t2).Nodup)
    (hval : ∀ r, PyDict.find? t2 k = some r → PyDict.update r v = r) :
    adjustNode t2 k v = t2 := by
  unfold adjustNode
  apply PyDict.list_map_id_of
  intro p hp
  by_cases hc : p.1 == k
  · rw [if_pos hc]
    have hpk : p.1 = k := beq_iff_eq.mp hc
    have hfind : PyDict.find? t2 k = some p.2 := by
      rw [← hpk]
      exact PyDict.find?_eq_of_mem_nodup hnt hp
    rw [hval p.2 hfind]
  · rw [if_neg hc]

theorem mergeNodes_idem :
    ∀ (o : List (String × NodeRec)), (PyDict.keys o).Nodup →
      (∀ p ∈ o, (PyDict.keys p.2).Nodup) →
      ∀ t, (∀ p ∈ o, PyDict.containsKey t p.1 = true) → (PyDict.keys t).Nodup →
      (mergeNodes (mergeNodes t o).1 o).1 = (mergeNodes t o).1 := by
  intro o
  induction o with
  | nil =>
    intro _ _ t _ _
    rfl
  | cons p rest ih =>
    intro ho hov t hsub ht
    rcases p with ⟨k, v⟩
    simp only [PyDict.keys, List.map_cons, List.nodup_cons] at ho
    have hck : PyDict.containsKey t k = true := hsub (k, v) (List.mem_cons_self _ _)
    simp only [mergeNodes, if_pos hck]
    have hkeysadj : PyDict.keys (adjustNode t k v) = PyDict.keys t :=
      keys_adjustNode t k v
    have hkeys : PyDict.keys (mergeNodes (adjustNode t k v) rest).1
        = PyDict.keys t := by
      rw [keys_mergeNodes, hkeysadj]
    have hck2 : PyDict.containsKey (mergeNodes (adjustNode t k v) rest).1 k = true := by
      rw [PyDict.containsKey_eq_of_keys_eq hkeys]
      exact hck
    simp only [mergeNodes, if_pos hck2]
    have hnt2 : (PyDict.keys (mergeNodes (adjustNode t k v) rest).1).Nodup := by
      rw [hkeys]
      exact ht
    have hvnodup : (PyDict.keys v).Nodup := hov (k, v) (List.mem_cons_self _ _)
    have hadj : adjustNode (mergeNodes (adjustNode t k v) rest).1 k v
        = (mergeNodes (adjustNode t k v) rest).1 := by
      apply adjustNode_eq_self hnt2
      intro r2 hr2
      rcases PyDict.exists_find?_of_mem_keys
        ((PyDict.containsKey_iff_mem_keys t k).mp hck) with ⟨r, hr⟩
      have hfind2 : PyDict.find? (mergeNodes (adjustNode t k v) rest).1 k
          = some (PyDict.update r v) := by
        rw [find?_mergeNodes_not_mem rest (adjustNode t k v) ho.1,
          find?_adjustNode_self, hr]
        rfl
      have hr2v : r2 = PyDict.update r v := by
        rw [hr2] at hfind2
        injection hfind2
      rw [hr2v]
      exact PyDict.update_idem hvnodup r
    rw [hadj]
    refine ih ho.2 (fun q hq => hov q (List.mem_cons_of_mem _ hq))
      (adjustNode t k v) ?_ ?_
    · intro q hq
      rw [PyDict.containsKey_eq_of_keys_eq hkeysadj]
      exact hsub q (List.mem_cons_of_mem _ hq)
    · rw [hkeysadj]
      exact ht

/-- The fields of the primary topology document that the loader reads:
the mapping stored under `mgmt` (empty when the key is absent, mirroring
the `.get("mgmt", {})` chain) and the node mapping reached through
`.get("topology", {}).get("nodes", {})`. -/
structure TopologyDoc where
  mgmt : NodeRec
  nodes : List (String × NodeRec)
deriving Repr

/-- The fields of the extra-topology-vars document that the loader reads:
its `nodes` override mapping and its list of prefix entries (each a YAML
mapping carrying at least a CIDR field and a name field). -/
structure ExtraVarsDoc where
  nodes : List (String × NodeRec)
  prefixes : List NodeRec
deriving Repr

/-- The merge step of utils_load_nautobot_data acting on whole documents
(lines 148-152 of app.py): only the topology node mapping is mutated, the
rest of the primary document is untouched. Returns the effective document
and the warning lines. -/
def mergeDocs (t : TopologyDoc) (e : ExtraVarsDoc) : TopologyDoc × List String :=
  let r := mergeNodes t.nodes e.nodes
  (⟨t.mgmt, r.1⟩, r.2)

/-- C6: for overrides whose node keys all occur among the primary
topology's node keys, applying the merge twice with the same overrides
yields the same effective document as applying it once. -/
theorem merge_idempotent (t : TopologyDoc) (e : ExtraVarsDoc)
    (hsub : ∀ p ∈ e.nodes, PyDict.containsKey t.nodes p.1 = true)
    (ht : (PyDict.keys t.nodes).Nodup) (ho : (PyDict.keys e.nodes).Nodup)
    (hov : ∀ p ∈ e.nodes, (PyDict.keys p.2).Nodup) :
    (mergeDocs (mergeDocs t e).1 e).1 = (mergeDocs t e).1 := by
  show (⟨t.mgmt, (mergeNodes (mergeNodes t.nodes e.nodes).1 e.nodes).1⟩ : TopologyDoc)
    = ⟨t.mgmt, (mergeNodes t.nodes e.nodes).1⟩
  rw [mergeNodes_idem e.nodes ho hov t.nodes hsub ht]

/-- Concrete documents used by the idempotence witness. -/
def topoDocEx : TopologyDoc :=
  ⟨[("ipv4-subnet", JVal.jstr "172.20.20.0/24")], mergeTEx⟩

/-- Concrete overrides document with node keys a subset of the primary
topology's node keys. -/
def extraDocEx : ExtraVarsDoc :=
  ⟨[("ceos-01", [("kind", JVal.jstr "srl")])], [[("prefix", JVal.jstr "10.0.0.0/24"), ("name", JVal.jstr "lab")]]⟩

/-- Witness for merge_idempotent at concrete inputs. -/
theorem merge_idempotent_witness :
    ((∀ p ∈ extraDocEx.nodes, PyDict.containsKey topoDocEx.nodes p.1 = true) ∧
      (PyDict.keys topoDocEx.nodes).Nodup ∧ (PyDict.keys extraDocEx.nodes).Nodup ∧
      (∀ p ∈ extraDocEx.nodes, (PyDict.keys p.2).Nodup)) ∧
    (mergeDocs (mergeDocs topoDocEx extraDocEx).1 extraDocEx).1
      = (mergeDocs topoDocEx extraDocEx).1 :=
  ⟨⟨by decide, by decide, by decide, by decide⟩,
    merge_idempotent topoDocEx extraDocEx (by decide) (by decide) (by decide) (by decide)⟩

/-!
URL normalization: NautobotClient._parse_url (app.py lines 27-32) calls
urllib.parse.urlparse and, when a scheme was detected, returns
parsed_url.geturl(). The relevant CPython 3.11 semantics (urlsplit and
urlunsplit on str input with allow_fragments left at its default; the
params split performed by urlparse is rejoined verbatim by geturl, so
geturl coincides with urlunsplit of urlsplit) are embedded below on
character lists.
-/

/-- Characters CPython accepts inside a URL scheme: ASCII letters, digits,
plus, minus and dot. -/
def isSchemeChar (c : Char) : Bool :=
  c.isAlpha || c.isDigit || c == '+' || c == '-' || c == '.'

/-- Split a character list at the first occurrence of `sep`; `none` when
`sep` does not occur (Python's `find` returning -1 / `in` being false). -/
def splitAtFirst (sep : Char) : List Char → Option (List Char × List Char)
  | [] => none
  | c :: rest =>
    if c = sep then some ([], rest)
    else
      match splitAtFirst sep rest with
      | none => none
      | some (a, b) => some (c :: a, b)

/-- The scheme-detection step of CPython urlsplit: the text before the
first colon must be nonempty, start with an ASCII letter and consist of
scheme characters only; it is lowercased. Returns the scheme and the rest
of the URL, or `none` when no scheme is detected. -/
def detectScheme (url : List Char) : Option (List Char × List Char) :=
  match splitAtFirst ':' url with
  | none => none
  | some (before, after) =>
    match before with
    | [] => none
    | c0 :: _ =>
      if c0.isAlpha && before.all isSchemeChar then
        some (before.map Char.toLower, after)
      else none

/-- CPython _splitnetloc: the authority runs until the first of slash,
question mark or hash. -/
def splitNetloc (l : List Char) : List Char × List Char :=
  (l.takeWhile (fun c => !(c == '/' || c == '?' || c == '#')),
   l.dropWhile (fun c => !(c == '/' || c == '?' || c == '#')))

/-- The five components produced by CPython urlsplit. -/
structure SplitResult where
  scheme : List Char
  netloc : List Char
  path : List Char
  query : List Char
  fragment : List Char
deriving Repr, DecidableEq

/-- CPython 3.11 urlsplit on str input (allow_fragments true), on character
lists. A `none` result models a raised ValueError: unbalanced square
brackets in the authority, and, conservatively, any non-ASCII authority
(the NFKC check that CPython then runs needs unicode tables that are
outside this model; every URL the program builds is ASCII). -/
def pyUrlsplit (url0 : List Char) : Option SplitResult :=
  let url1 := url0.filter (fun c => !(c == '\t' || c == '\r' || c == '\n'))
  let sr :=
    match detectScheme url1 with
    | some (s, rest) => (s, rest)
    | none => ([], url1)
  let scheme := sr.1
  let url2 := sr.2
  let nr :=
    if url2.take 2 = ['/', '/'] then splitNetloc (url2.drop 2)
    else ([], url2)
  let netloc := nr.1
  let url3 := nr.2
  if (netloc.any (fun c => c == '[') && !netloc.any (fun c => c == ']'))
      || (netloc.any (fun c => c == ']') && !netloc.any (fun c => c == '[')) then none
  else
    let fr :=
      match splitAtFirst '#' url3 with
      | some (a, b) => (a, b)
      | none => (url3, [])
    let url4 := fr.1
    let fragment := fr.2
    let qr :=
      match splitAtFirst '?' url4 with
      | some (a, b) => (a, b)
      | none => (url4, [])
    let path := qr.1
    let query := qr.2
    if !netloc.isEmpty && !netloc.all (fun c => c.toNat < 128) then none
    else some ⟨scheme, netloc, path, query, fragment⟩

/-- The schemes for which CPython urlunsplit re-inserts a `//` authority
marker even when the authority is empty. -/
def usesNetloc : List (List Char) :=
  ["", "ftp", "http", "gopher", "nntp", "telnet", "imap", "wais", "file",
   "mms", "https", "shttp", "snews", "prospero", "rtsp", "rtspu", "rsync",
   "svn", "svn+ssh", "sftp", "nfs", "git", "git+ssh", "ws",
   "wss"].map String.data

/-- CPython 3.11 urlunsplit on character lists. -/
def pyUrlunsplit (r : SplitResult) : List Char :=
  let url :=
    if !r.netloc.isEmpty
        || (!r.scheme.isEmpty && usesNetloc.any (fun s => s == r.scheme)
            && !(r.path.take 2 == ['/', '/'])) then
      let url2 :=
        if !r.path.isEmpty && !(r.path.take 1 == ['/']) then '/' :: r.path else r.path
      '/' :: '/' :: (r.netloc ++ url2)
    else r.path
  let url3 := if !r.scheme.isEmpty then r.scheme ++ ':' :: url else url
  let url4 := if !r.query.isEmpty then url3 ++ '?' :: r.query else url3
  if !r.fragment.isEmpty then url4 ++ '#' :: r.fragment else url4

/-- NautobotClient._parse_url (app.py lines 27-32): parse the URL; when no
scheme was detected return the input with http:// prepended, otherwise
return the parsed URL reassembled by geturl(). A `none` result models a
ValueError propagating out of urlparse (see pyUrlsplit). -/
def parse_url (url : String) : Option String :=
  match pyUrlsplit url.data with
  | none => none
  | some r =>
    if r.scheme = [] then some ("http://" ++ url)
    else some (String.mk (pyUrlunsplit r))

/-- An authority character that keeps urlsplit on its plain path: ASCII,
and none of the characters that delimit the authority, unbalance its
brackets, or get stripped before parsing. -/
def netlocPlainChar (c : Char) : Bool :=
  c.toNat < 128 && !(c == '/' || c == '?' || c == '#' || c == '[' || c == ']'
    || c == '\t' || c == '\r' || c == '\n')

/-- A path character that does not start a query or fragment and does not
get stripped before parsing. -/
def pathPlainChar (c : Char) : Bool :=
  !(c == '#' || c == '?' || c == '\t' || c == '\r' || c == '\n')

theorem not_unsafe_of_schemeChar {c : Char} (h : isSchemeChar c = true) :
    (c == '\t' || c == '\r' || c == '\n') = false := by
  cases hb : (c == '\t' || c == '\r' || c == '\n')
  · rfl
  · exfalso
    simp only [Bool.or_eq_true, beq_iff_eq] at hb
    rcases hb with (hc | hc) | hc <;> subst hc <;> exact absurd h (by decide)

theorem not_colon_of_schemeChar {c : Char} (h : isSchemeChar c = true) :
    ¬ c = ':' := by
  intro hc
  subst hc
  exact absurd h (by decide)

theorem splitAtFirst_eq_none_of_not_mem {sep : Char} :
    ∀ {l : List Char}, (∀ c ∈ l, ¬ c = sep) → splitAtFirst sep l = none
  | [], _ => rfl
  | c :: rest, h => by
    simp only [splitAtFirst]
    rw [if_neg (h c (List.mem_cons_self c rest))]
    rw [splitAtFirst_eq_none_of_not_mem (fun d hd => h d (List.mem_cons_of_mem c hd))]

theorem splitAtFirst_append_sep {sep : Char} :
    ∀ (a b : List Char), (∀ c ∈ a, ¬ c = sep) →
      splitAtFirst sep (a ++ sep :: b) = some (a, b)
  | [], b, _ => by simp [splitAtFirst]
  | c :: a, b, h => by
    have hrec := splitAtFirst_append_sep a b (fun d hd => h d (List.mem_cons_of_mem c hd))
    simp only [List.cons_append, splitAtFirst]
    rw [if_neg (h c (List.mem_cons_self c a)),
      show a.append (sep :: b) = a ++ sep :: b from rfl, hrec]

theorem takeWhile_append_of_all {α : Type} {p : α → Bool} :
    ∀ (a b : List α), (∀ c ∈ a, p c = true) →
      (a ++ b).takeWhile p = a ++ b.takeWhile p
  | [], _, _ => rfl
  | c :: a, b, h => by
    simp only [List.cons_append, List.takeWhile_cons, h c (List.mem_cons_self c a),
      if_true]
    rw [takeWhile_append_of_all a b (fun d hd => h d (List.mem_cons_of_mem c hd))]

theorem dropWhile_append_of_all {α : Type} {p : α → Bool} :
    ∀ (a b : List α), (∀ c ∈ a, p c = true) →
      (a ++ b).dropWhile p = b.dropWhile p
  | [], _, _ => rfl
  | c :: a, b, h => by
    simp only [List.cons_append, List.dropWhile_cons, h c (List.mem_cons_self c a),
      if_true]
    exact dropWhile_append_of_all a b (fun d hd => h d (List.mem_cons_of_mem c hd))

/-- C7 counterexample: a URL whose scheme is present is not necessarily
kept unchanged (geturl lowercases the scheme), and a host:port string such
as localhost:8080 is parsed as carrying scheme "localhost" and returned
unchanged instead of receiving an http:// prefix marker. -/
theorem parse_url_counterexample :
    parse_url "HTTP://example.com" ≠ some "HTTP://example.com" ∧
    parse_url "HTTP://example.com" = some "http://example.com" ∧
    parse_url "localhost:8080" = some "localhost:8080" ∧
    parse_url "localhost:8080" ≠ some "http://localhost:8080" :=
  ⟨by decide, by decide, by decide, by decide⟩

theorem netlocPlain_spec {c : Char} (h : netlocPlainChar c = true) :
    c.toNat < 128 ∧ (c == '/') = false ∧ (c == '?') = false ∧ (c == '#') = false ∧
    (c == '[') = false ∧ (c == ']') = false ∧ (c == '\t') = false ∧
    (c == '\r') = false ∧ (c == '\n') = false := by
  unfold netlocPlainChar at h
  simp only [Bool.and_eq_true, Bool.not_eq_true', Bool.or_eq_false_iff,
    decide_eq_true_eq] at h
  tauto

theorem pathPlain_spec {c : Char} (h : pathPlainChar c = true) :
    (c == '#') = false ∧ (c == '?') = false ∧ (c == '\t') = false ∧
    (c == '\r') = false ∧ (c == '\n') = false := by
  unfold pathPlainChar at h
  simp only [Bool.not_eq_true', Bool.or_eq_false_iff] at h
  tauto

theorem pyUrlsplit_roundtrip (c0 : Char) (schRest netloc path : List Char)
    (hc0 : c0.isAlpha = true)
    (hsch : ∀ c ∈ c0 :: schRest, isSchemeChar c = true)
    (hlow : (c0 :: schRest).map Char.toLower = c0 :: schRest)
    (hnetc : ∀ c ∈ netloc, netlocPlainChar c = true)
    (hpath : path = [] ∨ path.take 1 = ['/'])
    (hpathc : ∀ c ∈ path, pathPlainChar c = true) :
    pyUrlsplit ((c0 :: schRest) ++ ':' :: '/' :: '/' :: (netloc ++ path))
      = some ⟨c0 :: schRest, netloc, path, [], []⟩ := by
  have hfilter : ((c0 :: schRest) ++ ':' :: '/' :: '/' :: (netloc ++ path)).filter
      (fun c => !(c == '\t' || c == '\r' || c == '\n'))
      = (c0 :: schRest) ++ ':' :: '/' :: '/' :: (netloc ++ path) := by
    rw [List.filter_eq_self]
    intro c hc
    show (!(c == '\t' || c == '\r' || c == '\n')) = true
    rcases List.mem_append.mp hc with hs | hr
    · rw [not_unsafe_of_schemeChar (hsch c hs)]
      rfl
    · rcases List.mem_cons.mp hr with hcol | hr2
      · subst hcol; decide
      · rcases List.mem_cons.mp hr2 with hsl | hr3
        · subst hsl; decide
        · rcases List.mem_cons.mp hr3 with hsl | hr4
          · subst hsl; decide
          · rcases List.mem_append.mp hr4 with hn | hp
            · rcases netlocPlain_spec (hnetc c hn) with ⟨_, _, _, _, _, _, h7, h8, h9⟩
              simp [h7, h8, h9]
            · rcases pathPlain_spec (hpathc c hp) with ⟨_, _, h3, h4, h5⟩
              simp [h3, h4, h5]
  have hdetect : detectScheme ((c0 :: schRest) ++ ':' :: '/' :: '/' :: (netloc ++ path))
      = some (c0 :: schRest, '/' :: '/' :: (netloc ++ path)) := by
    unfold detectScheme
    rw [splitAtFirst_append_sep (c0 :: schRest) ('/' :: '/' :: (netloc ++ path))
      (fun c hc => not_colon_of_schemeChar (hsch c hc))]
    have hcond : (c0.isAlpha && (c0 :: schRest).all isSchemeChar) = true := by
      rw [hc0, List.all_eq_true.mpr hsch]
      rfl
    show (if (c0.isAlpha && (c0 :: schRest).all isSchemeChar) = true
        then some (List.map Char.toLower (c0 :: schRest), '/' :: '/' :: (netloc ++ path))
        else none) = some (c0 :: schRest, '/' :: '/' :: (netloc ++ path))
    rw [if_pos hcond, hlow]
  have hdelim : ∀ c ∈ netloc, (fun c => !(c == '/' || c == '?' || c == '#')) c = true := by
    intro c hn
    rcases netlocPlain_spec (hnetc c hn) with ⟨_, h2, h3, h4, _⟩
    simp [h2, h3, h4]
  have htake : (netloc ++ path).takeWhile (fun c => !(c == '/' || c == '?' || c == '#'))
      = netloc := by
    rw [takeWhile_append_of_all netloc path hdelim]
    rcases hpath with hp | hp
    · rw [hp]
      simp
    · rcases path with _ | ⟨c, tl⟩
      · simp
      · have hc : c = '/' := by
          have : [c] = ['/'] := by simpa using hp
          simpa using this
        subst hc
        rw [List.takeWhile_cons]
        simp
  have hdrop : (netloc ++ path).dropWhile (fun c => !(c == '/' || c == '?' || c == '#'))
      = path := by
    rw [dropWhile_append_of_all netloc path hdelim]
    rcases hpath with hp | hp
    · rw [hp]
      rfl
    · rcases path with _ | ⟨c, tl⟩
      · rfl
      · have hc : c = '/' := by
          have : [c] = ['/'] := by simpa using hp
          simpa using this
        subst hc
        rw [List.dropWhile_cons]
        simp
  have hbr1 : netloc.any (fun c => c == '[') = false := by
    rw [List.any_eq_false]
    intro c hn
    rcases netlocPlain_spec (hnetc c hn) with ⟨_, _, _, _, h5, _⟩
    simpa using h5
  have hbr2 : netloc.any (fun c => c == ']') = false := by
    rw [List.any_eq_false]
    intro c hn
    rcases netlocPlain_spec (hnetc c hn) with ⟨_, _, _, _, _, h6, _⟩
    simpa using h6
  have hfrag : splitAtFirst '#' path = none := by
    apply splitAtFirst_eq_none_of_not_mem
    intro c hp
    rcases pathPlain_spec (hpathc c hp) with ⟨h1, _⟩
    exact beq_eq_false_iff_ne.mp h1
  have hquery : splitAtFirst '?' path = none := by
    apply splitAtFirst_eq_none_of_not_mem
    intro c hp
    rcases pathPlain_spec (hpathc c hp) with ⟨_, h2, _⟩
    exact beq_eq_false_iff_ne.mp h2
  have hascii : netloc.all (fun c => c.toNat < 128) = true := by
    rw [List.all_eq_true]
    intro c hn
    rcases netlocPlain_spec (hnetc c hn) with ⟨h1, _⟩
    simpa using h1
  unfold pyUrlsplit
  simp only [hfilter, hdetect, splitNetloc, List.take_succ_cons, List.take_zero,
    List.drop_succ_cons, List.drop_zero, eq_self_iff_true, if_true, htake, hdrop,
    hfrag, hquery, hbr1, hbr2, hascii, Bool.false_and, Bool.and_false,
    Bool.or_self, Bool.not_true, Bool.false_eq_true, if_false]

theorem pyUrlunsplit_roundtrip (c0 : Char) (schRest netloc path : List Char)
    (hnet : netloc ≠ [])
    (hpath : path = [] ∨ path.take 1 = ['/']) :
    pyUrlunsplit ⟨c0 :: schRest, netloc, path, [], []⟩
      = (c0 :: schRest) ++ ':' :: '/' :: '/' :: (netloc ++ path) := by
  have hne : netloc.isEmpty = false := by
    rcases netloc with _ | ⟨c, tl⟩
    · exact absurd rfl hnet
    · rfl
  have hurl2 : (!path.isEmpty && !(path.take 1 == ['/'])) = false := by
    rcases hpath with hp | hp
    · subst hp
      rfl
    · rw [hp]
      simp
  unfold pyUrlunsplit
  simp only [hne, hurl2, Bool.not_false, Bool.true_or, if_true, if_false,
    Bool.false_eq_true, List.isEmpty_nil, Bool.not_true, Bool.and_false,
    List.isEmpty_cons, Bool.or_false, Bool.and_self]

/-- C7 amended: when urlparse detects no scheme in the endpoint string, the
stored base URL is exactly the string with http:// prepended; when a
scheme is detected the stored URL is the parse reassembled by geturl(),
which lowercases the scheme (see the counterexample) but returns
already-lowercase authority-form URLs unchanged; host:port strings such as
localhost:8080 are parsed as carrying a scheme and returned unchanged
rather than being given an http:// marker. -/
theorem parse_url_amended :
    (∀ (url : String) (r : SplitResult), pyUrlsplit url.data = some r →
      r.scheme = [] → parse_url url = some ("http://" ++ url)) ∧
    (∀ (c0 : Char) (schRest netloc path : List Char),
      c0.isAlpha = true →
      (∀ c ∈ c0 :: schRest, isSchemeChar c = true) →
      (c0 :: schRest).map Char.toLower = c0 :: schRest →
      netloc ≠ [] →
      (∀ c ∈ netloc, netlocPlainChar c = true) →
      (path = [] ∨ path.take 1 = ['/']) →
      (∀ c ∈ path, pathPlainChar c = true) →
      parse_url (String.mk ((c0 :: schRest) ++ ':' :: '/' :: '/' :: (netloc ++ path)))
        = some (String.mk ((c0 :: schRest) ++ ':' :: '/' :: '/' :: (netloc ++ path)))) := by
  constructor
  · intro url r h hs
    unfold parse_url
    rw [h]
    simp [hs]
  · intro c0 schRest netloc path hc0 hsch hlow hnet hnetc hpath hpathc
    unfold parse_url
    rw [show (String.mk ((c0 :: schRest) ++ ':' :: '/' :: '/' :: (netloc ++ path))).data
        = (c0 :: schRest) ++ ':' :: '/' :: '/' :: (netloc ++ path) from rfl,
      pyUrlsplit_roundtrip c0 schRest netloc path hc0 hsch hlow hnetc hpath hpathc]
    show (if (⟨c0 :: schRest, netloc, path, [], []⟩ : SplitResult).scheme = []
        then some ("http://"
          ++ String.mk ((c0 :: schRest) ++ ':' :: '/' :: '/' :: (netloc ++ path)))
        else some (String.mk (pyUrlunsplit ⟨c0 :: schRest, netloc, path, [], []⟩)))
      = some (String.mk ((c0 :: schRest) ++ ':' :: '/' :: '/' :: (netloc ++ path)))
    rw [if_neg (by simp), pyUrlunsplit_roundtrip c0 schRest netloc path hnet hpath]

/-- Witness for parse_url_amended at concrete inputs: a bare host:port with
a digit-leading host gets the http:// marker; a lowercase authority-form
URL is returned unchanged. -/
theorem parse_url_amended_witness :
    parse_url "192.168.1.10:8080" = some ("http://" ++ "192.168.1.10:8080") ∧
    parse_url (String.mk (('h' :: "ttp".data)
        ++ ':' :: '/' :: '/' :: ("example.com".data ++ "/api".data)))
      = some (String.mk (('h' :: "ttp".data)
        ++ ':' :: '/' :: '/' :: ("example.com".data ++ "/api".data))) := by
  constructor
  · exact parse_url_amended.1 "192.168.1.10:8080"
      ⟨[], [], "192.168.1.10:8080".data, [], []⟩ (by decide) rfl
  · exact parse_url_amended.2 'h' "ttp".data "example.com".data "/api".data
      (by decide) (by decide) (by decide) (by decide) (by decide) (by decide)
      (by decide)

/-!
NautobotClient.http_call (app.py lines 52-101): request preparation
prepends base_url to the path; the response is then checked for an
"already exists" body, raise_for_status, the 204 empty result, and JSON
decoding, in that order.
-/

/-- Whether the first list is an initial segment of the second. -/
def listIsPfxOf : List Char → List Char → Bool
  | [], _ => true
  | _ :: _, [] => false
  | a :: as, b :: bs => a == b && listIsPfxOf as bs

/-- Whether `needle` occurs contiguously inside the second list. -/
def listHasSub (needle : List Char) : List Char → Bool
  | [] => needle.isEmpty
  | c :: rest => listIsPfxOf needle (c :: rest) || listHasSub needle rest

/-- Python's `needle in hay` on strings. -/
def strContainsSub (hay needle : String) : Bool := listHasSub needle.data hay.data

/-- The failures NautobotClient.http_call can raise once a response has
arrived: the ValueError raised on an "already exists" body (line 92), the
HTTPError raised by raise_for_status on a 4xx/5xx status (line 95), and a
JSON decode failure from response.json() (line 101). -/
inductive HttpCallError where
  | conflict (text : String)
  | statusError (code : Nat)
  | jsonError
deriving Repr, DecidableEq

/-- An HTTP response as http_call consumes it: status code, raw body text,
and the JSON parse of the body when the body is valid JSON. -/
structure HttpResponse where
  statusCode : Nat
  text : String
  jsonBody : Option JVal
deriving Repr

/-- The response handling of NautobotClient.http_call (app.py lines
90-101): raise ValueError when the body text contains "already exists"
(before any status handling), then raise_for_status for 4xx/5xx, then
return an empty dict on 204, else the parsed JSON body. -/
def http_call_handle (resp : HttpResponse) : Except HttpCallError JVal :=
  if strContainsSub resp.text "already exists" then
    .error (.conflict resp.text)
  else if 400 ≤ resp.statusCode ∧ resp.statusCode < 600 then
    .error (.statusError resp.statusCode)
  else if resp.statusCode = 204 then .ok (.jmap [])
  else
    match resp.jsonBody with
    | some j => .ok j
    | none => .error .jsonError

/-- C4: for every response whose raw body text contains the literal
substring "already exists", http_call raises the conflict ValueError
immediately, regardless of the status code and before any generic
status-code handling. -/
theorem http_call_conflict (resp : HttpResponse)
    (h : strContainsSub resp.text "already exists" = true) :
    http_call_handle resp = .error (.conflict resp.text) := by
  unfold http_call_handle
  rw [if_pos h]

/-- Witness for http_call_conflict: a 200 response whose body mentions
"already exists" yields the conflict error even though its status code
would otherwise parse as a success with a body. -/
theorem http_call_conflict_witness :
    strContainsSub "device with this name already exists." "already exists" = true ∧
    http_call_handle ⟨200, "device with this name already exists.", some (JVal.jmap [])⟩
      = .error (.conflict "device with this name already exists.") :=
  ⟨by decide, http_call_conflict ⟨200, "device with this name already exists.",
    some (JVal.jmap [])⟩ (by decide)⟩

/-!
Retry policy: app.py lines 43-50 configure a urllib3 Retry with
total = self.retries (kwargs default 3, line 22), backoff_factor = 1 and
status_forcelist = [429, 500, 502, 503, 504], mounted for both http and
https. The Retry loop itself is library code outside this repository, so
it is modelled from the spec below.
-/

/-- The retry allow-list configured at app.py line 46. -/
def status_forcelist : List Nat := [429, 500, 502, 503, 504]

/-- One attempt outcome at the transport layer: a connection-level failure
or an HTTP response with a status code. -/
inductive TransportResult where
  | failure
  | response (status : Nat)
deriving Repr, DecidableEq

/-- Whether the configured retry mechanism retries this attempt outcome:
transport failures and forcelisted statuses. -/
def isRetryable : TransportResult → Bool
  | .failure => true
  | .response s => status_forcelist.contains s

/-- Terminal outcome of the bounded retry loop: a non-forcelisted status
below 400 is a success, a non-forcelisted 4xx/5xx status is terminal
without retry, and running out of budget is the retries-exhausted error. -/
inductive RetryOutcome where
  | success (status : Nat) (attemptsUsed : Nat)
  | terminalStatus (status : Nat) (attemptsUsed : Nat)
  | exhausted (attemptsUsed : Nat)
deriving Repr, DecidableEq

/-- Modelled from the spec: the retry loop lives in urllib3's
Retry/HTTPAdapter, which is not part of this repository's source; app.py
only configures it. Per spec sections 4.1 and 7, transport-level failures
and forcelisted statuses are retried with exponential backoff until the
attempt budget runs out, and every other status ends the loop on its first
occurrence. The first argument is the backoff factor; the second
component of the result records the backoff delays slept between
attempts; `k` is the zero-based index of the next attempt. -/
def retryLoop (factor : Nat) (transport : Nat → TransportResult) :
    Nat → Nat → RetryOutcome × List Nat
  | 0, k => (.exhausted k, [])
  | b + 1, k =>
    match transport k with
    | .failure =>
      let r := retryLoop factor transport b (k + 1)
      (r.1, factor * 2 ^ k :: r.2)
    | .response s =>
      if status_forcelist.contains s then
        let r := retryLoop factor transport b (k + 1)
        (r.1, factor * 2 ^ k :: r.2)
      else if 400 ≤ s then (.terminalStatus s (k + 1), [])
      else (.success s (k + 1), [])

/-- NautobotClient.__init__ configuration (app.py lines 13-25): the parsed
base URL plus verify_ssl, retries and timeout drawn from kwargs with
defaults False, 3 and 10. -/
structure NautobotClientCfg where
  base_url : Option String
  verify_ssl : Bool
  retries : Nat
  timeout : Nat
deriving Repr

/-- NautobotClient.__init__ on the fields the claims touch; each optional
argument models the corresponding kwargs entry. -/
def NautobotClient_init (url : String) (verifySslArg : Option Bool)
    (retriesArg : Option Nat) (timeoutArg : Option Nat) : NautobotClientCfg :=
  ⟨parse_url url, verifySslArg.getD false, retriesArg.getD 3, timeoutArg.getD 10⟩

theorem retryLoop_consume (factor : Nat) (transport : Nat → TransportResult) :
    ∀ (m b k : Nat), (∀ j, j < m → isRetryable (transport (k + j)) = true) →
      retryLoop factor transport (m + b) k
        = ((retryLoop factor transport b (k + m)).1,
           (List.range m).map (fun j => factor * 2 ^ (k + j))
             ++ (retryLoop factor transport b (k + m)).2) := by
  intro m
  induction m with
  | zero =>
    intro b k _
    simp
  | succ m ih =>
    intro b k h
    have h0 : isRetryable (transport k) = true := by
      have := h 0 (Nat.succ_pos m)
      rwa [Nat.add_zero] at this
    have hrec := ih b (k + 1) (fun j hj => by
      have := h (j + 1) (by omega)
      rwa [show k + (j + 1) = k + 1 + j from by omega] at this)
    have hde : (List.range (m + 1)).map (fun j => factor * 2 ^ (k + j))
        = factor * 2 ^ k
          :: (List.range m).map (fun j => factor * 2 ^ (k + 1 + j)) := by
      rw [List.range_succ_eq_map, List.map_cons, List.map_map]
      congr 1
      apply List.map_congr_left
      intro j _
      show factor * 2 ^ (k + (j + 1)) = factor * 2 ^ (k + 1 + j)
      rw [show k + (j + 1) = k + 1 + j from by omega]
    rw [show m + 1 + b = (m + b) + 1 from by omega]
    show (match transport k with
      | .failure =>
        let r := retryLoop factor transport (m + b) (k + 1)
        (r.1, factor * 2 ^ k :: r.2)
      | .response s =>
        if status_forcelist.contains s then
          let r := retryLoop factor transport (m + b) (k + 1)
          (r.1, factor * 2 ^ k :: r.2)
        else if 400 ≤ s then (.terminalStatus s (k + 1), [])
        else (.success s (k + 1), [])) = _
    cases htr : transport k with
    | failure =>
      simp only []
      rw [hrec, hde]
      rw [show k + 1 + m = k + (m + 1) from by omega]
      simp
    | response s =>
      rw [htr] at h0
      have hret : status_forcelist.contains s = true := h0
      simp only [hret, if_true]
      rw [hrec, hde]
      rw [show k + 1 + m = k + (m + 1) from by omega]
      simp

/-- C5: the client defaults to 3 retry attempts; transport failures and
forcelisted statuses (429, 500, 502, 503, 504) are retried with
exponential backoff at factor 1; a transport that produces retryable
outcomes on the first N-1 attempts and then a non-forcelisted success
status completes in exactly N attempts with the geometric backoff
schedule; N retryable outcomes exhaust the budget; any other 4xx/5xx
status terminates on the first attempt without retry. -/
theorem retry_policy :
    (∀ url, (NautobotClient_init url none none none).retries = 3) ∧
    (∀ (N : Nat) (transport : Nat → TransportResult) (s : Nat),
      1 ≤ N →
      (∀ k, k < N - 1 → isRetryable (transport k) = true) →
      transport (N - 1) = .response s →
      status_forcelist.contains s = false → s < 400 →
      retryLoop 1 transport N 0
        = (.success s N, (List.range (N - 1)).map (fun j => 2 ^ j))) ∧
    (∀ (N : Nat) (transport : Nat → TransportResult),
      (∀ k, k < N → isRetryable (transport k) = true) →
      (retryLoop 1 transport N 0).1 = .exhausted N) ∧
    (∀ (N : Nat) (transport : Nat → TransportResult) (s : Nat),
      1 ≤ N → transport 0 = .response s →
      status_forcelist.contains s = false → 400 ≤ s →
      retryLoop 1 transport N 0 = (.terminalStatus s 1, [])) := by
  refine ⟨fun _ => rfl, ?_, ?_, ?_⟩
  · intro N transport s hN hfail hlast hnf hs
    have hsplit : retryLoop 1 transport ((N - 1) + 1) 0
        = ((retryLoop 1 transport 1 (0 + (N - 1))).1,
           (List.range (N - 1)).map (fun j => 1 * 2 ^ (0 + j))
             ++ (retryLoop 1 transport 1 (0 + (N - 1))).2) :=
      retryLoop_consume 1 transport (N - 1) 1 0
        (fun j hj => by rw [Nat.zero_add]; exact hfail j hj)
    rw [show N = (N - 1) + 1 from by omega, hsplit]
    have hone : retryLoop 1 transport 1 (0 + (N - 1)) = (.success s ((N - 1) + 1), []) := by
      show (match transport (0 + (N - 1)) with
        | .failure =>
          let r := retryLoop 1 transport 0 (0 + (N - 1) + 1)
          (r.1, 1 * 2 ^ (0 + (N - 1)) :: r.2)
        | .response s =>
          if status_forcelist.contains s then
            let r := retryLoop 1 transport 0 (0 + (N - 1) + 1)
            (r.1, 1 * 2 ^ (0 + (N - 1)) :: r.2)
          else if 400 ≤ s then (.terminalStatus s (0 + (N - 1) + 1), [])
          else (.success s (0 + (N - 1) + 1), [])) = _
      rw [Nat.zero_add, hlast]
      simp only [hnf, Bool.false_eq_true, if_false]
      rw [if_neg (by omega)]
    rw [hone]
    simp only [List.append_nil]
    rw [show N - 1 + 1 - 1 = N - 1 from by omega]
    congr 1
    apply List.map_congr_left
    intro j _
    rw [Nat.zero_add, Nat.one_mul]
  · intro N transport hfail
    have hsplit := retryLoop_consume 1 transport N 0 0
      (fun j hj => by rw [Nat.zero_add]; exact hfail j hj)
    rw [show N + 0 = N from by omega] at hsplit
    rw [hsplit]
    show (retryLoop 1 transport 0 (0 + N)).1 = RetryOutcome.exhausted N
    rw [Nat.zero_add]
    rfl
  · intro N transport s hN h0 hnf hs
    rcases N with _ | b
    · omega
    · show (match transport 0 with
        | .failure =>
          let r := retryLoop 1 transport b (0 + 1)
          (r.1, 1 * 2 ^ 0 :: r.2)
        | .response s =>
          if status_forcelist.contains s then
            let r := retryLoop 1 transport b (0 + 1)
            (r.1, 1 * 2 ^ 0 :: r.2)
          else if 400 ≤ s then (.terminalStatus s (0 + 1), [])
          else (.success s (0 + 1), [])) = _
      rw [h0]
      simp only [hnf, Bool.false_eq_true, if_false]
      rw [if_pos hs]

/-- Concrete transports used by the retry witness. -/
def trRetryEx : Nat → TransportResult :=
  fun k => if k < 2 then .response 503 else .response 201

/-- Transport that always answers 503. -/
def trRetryExAll : Nat → TransportResult := fun _ => .response 503

/-- Transport that answers 404 immediately. -/
def trRetryExBad : Nat → TransportResult := fun _ => .response 404

/-- Witness for retry_policy: with the default budget of 3, two 503s then
a 201 succeed in 3 attempts with backoff delays 1 and 2; three 503s
exhaust; a 404 terminates after one attempt. -/
theorem retry_policy_witness :
    (NautobotClient_init "http://localhost:8080" none none none).retries = 3 ∧
    retryLoop 1 trRetryEx 3 0 = (.success 201 3, (List.range 2).map (fun j => 2 ^ j)) ∧
    (retryLoop 1 trRetryExAll 3 0).1 = .exhausted 3 ∧
    retryLoop 1 trRetryExBad 3 0 = (.terminalStatus 404 1, []) := by
  refine ⟨retry_policy.1 "http://localhost:8080", ?_, ?_, ?_⟩
  · exact retry_policy.2.1 3 trRetryEx 201 (by decide)
      (fun k hk => by
        have hk2 : k < 2 := hk
        unfold trRetryEx
        rw [if_pos hk2]
        decide)
      (by decide) (by decide) (by decide)
  · exact retry_policy.2.2.1 3 trRetryExAll (fun k _ => rfl)
  · exact retry_policy.2.2.2 3 trRetryExBad 404 (by decide) (by decide)
      (by decide) (by decide)

/-!
The orchestrator utils_load_nautobot_data (app.py lines 129-393). Its
interaction with the remote system is modeled by an environment
`env : Nat → Outcome` giving, for the n-th HTTP call issued, either the
optional "id" field of the successful JSON response (the only response
data the function reads, besides the "display" string used purely in log
lines) or a raised http_call exception (transport failure after retries,
4xx/5xx status, conflict). Each issued call is recorded as a CallRec with
the upper-cased method, the path handed to http_call (http_call prepends
base_url when preparing the request), and the JSON payload. Every stage
returns the calls it issued, the next call index, and whether it finished
without an exception; a call that fails is still recorded as issued.
-/

/-- Outcome of one http_call: a successful response modeled by its
optional "id" field, or a raised exception. -/
inductive Outcome where
  | ok (id : Option String)
  | err
deriving Repr, DecidableEq

/-- The remote system's answers, indexed by call number. -/
abbrev Env := Nat → Outcome

/-- One issued HTTP call. -/
structure CallRec where
  method : String
  path : String
  body : JVal
deriving Repr

/-- Python str() of an optional id as interpolated into the device PATCH
URL f-string: None renders as "None". -/
def pyOptStr : Option String → String
  | none => "None"
  | some s => s

/-- The value `x.get("id")` embedded into a JSON payload: null when the
response carried no id field. -/
def optJ : Option String → JVal
  | none => JVal.jnull
  | some s => JVal.jstr s

/-- The payload idiom `x: {"id": y.get("id")}` with the braces written as
a JSON object. -/
def idRef (i : Option String) : JVal := JVal.jmap [("id", optJ i)]

/-- Python str() of a JSON value as interpolated into f-strings. The
documents in scope store strings in interpolated positions; other shapes
are rendered by fixed placeholders. -/
def pyStr : JVal → String
  | JVal.jstr s => s
  | JVal.jnull => "None"
  | JVal.jbool true => "True"
  | JVal.jbool false => "False"
  | JVal.jlist _ => "<list>"
  | JVal.jmap _ => "<dict>"

/-- Python str.upper on the ASCII method names passed to requests.Request
(http_call line 75). -/
def strUpper (s : String) : String := String.mk (s.data.map Char.toUpper)

/-- The request record prepared by http_call: the method is upper-cased
(line 75); the request URL is base_url ++ path. -/
def mkCall (method path : String) (body : JVal) : CallRec :=
  ⟨strUpper method, path, body⟩

/-- The device PATCH path f-string of line 388. -/
def devPatchPath (idStr : String) : String := "/api/dcim/devices/" ++ idStr ++ "/"

/-- Python subscripting `v[k]` / `v.get(k)` on a parsed YAML value: a
lookup when the value is a mapping; `none` for other shapes, where the
subscript raises. -/
def jGet : JVal → String → Option JVal
  | JVal.jmap es, k => PyDict.find? es k
  | _, _ => none

/-- The items iterated by `for x in v` (the documents in scope store
sequences in iterated positions). -/
def jItems : JVal → List JVal
  | JVal.jlist l => l
  | _ => []

/-- Payload of the Role POST (lines 158-162). -/
def roleBody : JVal :=
  JVal.jmap [("name", JVal.jstr "network_device"),
    ("content_types", JVal.jlist [JVal.jstr "dcim.device"])]

/-- Payload of the Manufacturer POST (lines 166-170). -/
def manufacturerBody : JVal := JVal.jmap [("name", JVal.jstr "Arista")]

/-- Payload of the DeviceType POST (lines 174-178). -/
def deviceTypeBody : JVal :=
  JVal.jmap [("manufacturer", JVal.jstr "Arista"), ("model", JVal.jstr "cEOS")]

/-- Payload of the LocationType POST (lines 182-186). -/
def locationTypeBody : JVal :=
  JVal.jmap [("name", JVal.jstr "site"),
    ("content_types", JVal.jlist [JVal.jstr "dcim.device"])]

/-- The content-type list shared by both Status payloads. -/
def statusContentTypes : JVal :=
  JVal.jlist [JVal.jstr "dcim.device", JVal.jstr "dcim.interface",
    JVal.jstr "dcim.location", JVal.jstr "ipam.ipaddress", JVal.jstr "ipam.prefix"]

/-- Payload of the active Status POST (lines 190-204). -/
def statusActiveBody : JVal :=
  JVal.jmap [("name", JVal.jstr "lab-active"),
    ("content_types", statusContentTypes), ("color", JVal.jstr "aaf0d1")]

/-- Payload of the alerted Status POST (lines 206-220). -/
def statusAlertedBody : JVal :=
  JVal.jmap [("name", JVal.jstr "Alerted"),
    ("content_types", statusContentTypes), ("color", JVal.jstr "ff5a36")]

/-- Payload of the Location POST (lines 224-232). -/
def locationBody (ltId stId : Option String) : JVal :=
  JVal.jmap [("name", JVal.jstr "lab"), ("location_type", idRef ltId),
    ("status", idRef stId)]

/-- Payload of the Namespace POST (lines 236-240). -/
def namespaceBody : JVal := JVal.jmap [("name", JVal.jstr "lab-default")]

/-- Payload of one prefix-entry POST (lines 245-255). -/
def prefixEntryBody (cidr : JVal) (nsId stId : Option String) (desc : JVal) : JVal :=
  JVal.jmap [("prefix", cidr), ("namespace", idRef nsId),
    ("type", JVal.jstr "network"), ("status", idRef stId), ("description", desc)]

/-- Payload of the management Prefix POST (lines 259-269): the CIDR is the
primary document's mgmt.ipv4-subnet value, null when the field is absent
(the .get chain returns None and no exception is raised). -/
def mgmtPrefixBody (topo : TopologyDoc) (nsId stId : Option String) : JVal :=
  JVal.jmap [("prefix", (PyDict.find? topo.mgmt "ipv4-subnet").getD JVal.jnull),
    ("namespace", idRef nsId), ("type", JVal.jstr "network"),
    ("status", idRef stId), ("description", JVal.jstr "lab-mgmt-prefix")]

/-- Payload of the Device POST (lines 274-290). -/
def deviceBody (node : String) (nd : NodeRec)
    (roleId dtId locId stId : Option String) : JVal :=
  JVal.jmap [("name", JVal.jstr node), ("role", idRef roleId),
    ("device_type", idRef dtId), ("location", idRef locId),
    ("status", idRef stId),
    ("customn_fields", JVal.jmap [("containerlab", JVal.jmap
      [("node_kind", (PyDict.find? nd "kind").getD JVal.jnull),
       ("node_address", (PyDict.find? nd "mgmt-ipv4").getD JVal.jnull)])])]

/-- Payload of an IPAddress POST (lines 295-304 and 340-349). -/
def ipAddressBody (addr : JVal) (stId nsId : Option String) : JVal :=
  JVal.jmap [("address", addr), ("status", idRef stId),
    ("namespace", idRef nsId), ("type", JVal.jstr "host")]

/-- Payload of a declared-interface POST (lines 307-319). -/
def interfaceBody (deviceId : Option String) (nameV : JVal) (roleV : Option JVal)
    (stId : Option String) : JVal :=
  JVal.jmap [("device", idRef deviceId), ("name", nameV),
    ("type", JVal.jstr "virtual"), ("enabled", JVal.jbool true),
    ("description", JVal.jstr ("Interface " ++ pyStr nameV)),
    ("status", idRef stId), ("label", roleV.getD JVal.jnull)]

/-- Payload of the management-interface POST (lines 353-365). -/
def mgmtInterfaceBody (deviceId stId : Option String) : JVal :=
  JVal.jmap [("device", idRef deviceId), ("name", JVal.jstr "Management0"),
    ("type", JVal.jstr "virtual"), ("enabled", JVal.jbool true),
    ("description", JVal.jstr "Management Interface"),
    ("status", idRef stId), ("label", JVal.jstr "mgmt")]

/-- Payload of an IPAddress-to-Interface mapping POST (lines 326-333 and
372-379). -/
def mappingBody (ipId intfId : Option String) : JVal :=
  JVal.jmap [("ip_address", idRef ipId), ("interface", idRef intfId)]

/-- Payload of the primary-address PATCH (lines 386-392). -/
def patchBody (mgmtIpId : Option String) : JVal :=
  JVal.jmap [("primary_ip4", idRef mgmtIpId)]

/-- The per-interface loop body (lines 294-337): IPAddress (aborting
before the call when the record has no "ipv4" value), Interface (aborting
when it has no "name" value), and the mapping. -/
def processIntfs (env : Env) (stId nsId deviceId : Option String) :
    Nat → List JVal → List CallRec × Nat × Bool
  | n, [] => ([], n, true)
  | n, intf :: rest =>
    match jGet intf "ipv4" with
    | none => ([], n, false)
    | some addr =>
      let ipCall := mkCall "post" "/api/ipam/ip-addresses/" (ipAddressBody addr stId nsId)
      match env n with
      | .err => ([ipCall], n + 1, false)
      | .ok ipId =>
        match jGet intf "name" with
        | none => ([ipCall], n + 1, false)
        | some nameV =>
          let intfCall := mkCall "post" "/api/dcim/interfaces/"
            (interfaceBody deviceId nameV (jGet intf "role") stId)
          match env (n + 1) with
          | .err => ([ipCall, intfCall], n + 2, false)
          | .ok intfId =>
            let mapCall := mkCall "post" "/api/ipam/ip-address-to-interface/"
              (mappingBody ipId intfId)
            match env (n + 2) with
            | .err => ([ipCall, intfCall, mapCall], n + 3, false)
            | .ok _ =>
              let r := processIntfs env stId nsId deviceId (n + 3) rest
              (ipCall :: intfCall :: mapCall :: r.1, r.2)

/-- The per-node loop body (lines 273-393): Device, declared interfaces,
management IPAddress, management Interface, their mapping, and the
primary-address PATCH whose URL embeds the device id. -/
def processNode (env : Env) (roleId dtId locId stId nsId : Option String)
    (n : Nat) (node : String) (nd : NodeRec) : List CallRec × Nat × Bool :=
  let devCall := mkCall "post" "/api/dcim/devices/"
    (deviceBody node nd roleId dtId locId stId)
  match env n with
  | .err => ([devCall], n + 1, false)
  | .ok deviceId =>
    match processIntfs env stId nsId deviceId (n + 1)
        (jItems ((PyDict.find? nd "interfaces").getD (JVal.jlist []))) with
    | (ics, n1, false) => (devCall :: ics, n1, false)
    | (ics, n1, true) =>
      let mipCall := mkCall "post" "/api/ipam/ip-addresses/"
        (ipAddressBody ((PyDict.find? nd "mgmt-ipv4").getD JVal.jnull) stId nsId)
      match env n1 with
      | .err => (devCall :: ics ++ [mipCall], n1 + 1, false)
      | .ok mipId =>
        let mintfCall := mkCall "post" "/api/dcim/interfaces/"
          (mgmtInterfaceBody deviceId stId)
        match env (n1 + 1) with
        | .err => (devCall :: ics ++ [mipCall, mintfCall], n1 + 2, false)
        | .ok mintfId =>
          let mmapCall := mkCall "post" "/api/ipam/ip-address-to-interface/"
            (mappingBody mipId mintfId)
          match env (n1 + 2) with
          | .err => (devCall :: ics ++ [mipCall, mintfCall, mmapCall], n1 + 3, false)
          | .ok _ =>
            let pCall := mkCall "patch" (devPatchPath (pyOptStr deviceId))
              (patchBody mipId)
            match env (n1 + 3) with
            | .err =>
              (devCall :: ics ++ [mipCall, mintfCall, mmapCall, pCall], n1 + 4, false)
            | .ok _ =>
              (devCall :: ics ++ [mipCall, mintfCall, mmapCall, pCall], n1 + 4, true)

/-- The node loop (line 273): process the effective node mapping in order,
stopping after the first node whose processing raised. -/
def stageNodes (env : Env) (roleId dtId locId stId nsId : Option String) :
    Nat → List (String × NodeRec) → List CallRec × Nat × Bool
  | n, [] => ([], n, true)
  | n, (node, nd) :: rest =>
    match processNode env roleId dtId locId stId nsId n node nd with
    | (cs, n1, false) => (cs, n1, false)
    | (cs, n1, true) =>
      let r2 := stageNodes env roleId dtId locId stId nsId n1 rest
      (cs ++ r2.1, r2.2)

/-- The prefix-entry loop (lines 244-256): each entry must hold a "prefix"
and a "name" value (a missing key raises while the payload is built,
before the call is issued); one POST per entry. -/
def stagePfx (env : Env) (nsId stId : Option String) :
    Nat → List NodeRec → List CallRec × Nat × Bool
  | n, [] => ([], n, true)
  | n, pd :: rest =>
    match PyDict.find? pd "prefix", PyDict.find? pd "name" with
    | some cidr, some nm =>
      let c := mkCall "post" "/api/ipam/prefixes/" (prefixEntryBody cidr nsId stId nm)
      match env n with
      | .err => ([c], n + 1, false)
      | .ok _ =>
        let r := stagePfx env nsId stId (n + 1) rest
        (c :: r.1, r.2)
    | _, _ => ([], n, false)

/-- utils_load_nautobot_data (lines 129-393) under an environment of HTTP
outcomes: merge the documents, then create Role, Manufacturer, DeviceType,
LocationType, the active and the alerted Status, the Location, the
Namespace, the prefix entries, the management Prefix, and the per-node
resources, aborting at the first raised exception. Returns the sequence
of issued calls and whether the whole run completed. -/
def utils_load_nautobot_data (env : Env) (topo : TopologyDoc)
    (extra : ExtraVarsDoc) : List CallRec × Bool :=
  let merged := (mergeNodes topo.nodes extra.nodes).1
  let c0 := mkCall "post" "/api/extras/roles/" roleBody
  match env 0 with
  | .err => ([c0], false)
  | .ok roleId =>
    let c1 := mkCall "post" "/api/dcim/manufacturers/" manufacturerBody
    match env 1 with
    | .err => ([c0, c1], false)
    | .ok _ =>
      let c2 := mkCall "post" "/api/dcim/device-types/" deviceTypeBody
      match env 2 with
      | .err => ([c0, c1, c2], false)
      | .ok dtId =>
        let c3 := mkCall "post" "/api/dcim/location-types/" locationTypeBody
        match env 3 with
        | .err => ([c0, c1, c2, c3], false)
        | .ok ltId =>
          let c4 := mkCall "post" "/api/extras/statuses/" statusActiveBody
          match env 4 with
          | .err => ([c0, c1, c2, c3, c4], false)
          | .ok stId =>
            let c5 := mkCall "post" "/api/extras/statuses/" statusAlertedBody
            match env 5 with
            | .err => ([c0, c1, c2, c3, c4, c5], false)
            | .ok _ =>
              let c6 := mkCall "post" "/api/dcim/locations/" (locationBody ltId stId)
              match env 6 with
              | .err => ([c0, c1, c2, c3, c4, c5, c6], false)
              | .ok locId =>
                let c7 := mkCall "post" "/api/ipam/namespaces/" namespaceBody
                match env 7 with
                | .err => ([c0, c1, c2, c3, c4, c5, c6, c7], false)
                | .ok nsId =>
                  match stagePfx env nsId stId 8 extra.prefixes with
                  | (pcs, _, false) =>
                    ([c0, c1, c2, c3, c4, c5, c6, c7] ++ pcs, false)
                  | (pcs, n1, true) =>
                    let cm := mkCall "post" "/api/ipam/prefixes/"
                      (mgmtPrefixBody topo nsId stId)
                    match env n1 with
                    | .err =>
                      ([c0, c1, c2, c3, c4, c5, c6, c7] ++ pcs ++ [cm], false)
                    | .ok _ =>
                      let nr := stageNodes env roleId dtId locId stId nsId (n1 + 1) merged
                      ([c0, c1, c2, c3, c4, c5, c6, c7] ++ pcs ++ cm :: nr.1, nr.2.2)

theorem stagePfx_ok (env : Env) (nsId stId : Option String) :
    ∀ (l : List NodeRec) (n : Nat),
      (∀ i, ∃ r, env i = .ok r) →
      (∀ pd ∈ l, (∃ v, PyDict.find? pd "prefix" = some v) ∧
        ∃ v, PyDict.find? pd "name" = some v) →
      (stagePfx env nsId stId n l).2.1 = n + l.length ∧
      (stagePfx env nsId stId n l).2.2 = true ∧
      (stagePfx env nsId stId n l).1.length = l.length
  | [], n, _, _ => ⟨rfl, rfl, rfl⟩
  | pd :: rest, n, hok, hwf => by
    obtain ⟨⟨cidr, hc⟩, nm, hn⟩ := hwf pd (List.mem_cons_self pd rest)
    obtain ⟨r, hr⟩ := hok n
    have ih := stagePfx_ok env nsId stId rest (n + 1) hok
      (fun q hq => hwf q (List.mem_cons_of_mem pd hq))
    unfold stagePfx
    rw [hc, hn, hr]
    simp only [List.length_cons]
    refine ⟨?_, ih.2.1, ?_⟩
    · rw [ih.1]
      omega
    · simp [ih.2.2]

/-- Primary document with no mgmt mapping at all (the .get chains then
yield the empty dict and None). -/
def topoNoMgmt : TopologyDoc := ⟨[], [("ceos-01", [("kind", JVal.jstr "ceos")])]⟩

/-- Empty overrides document. -/
def extraEmptyEx : ExtraVarsDoc := ⟨[], []⟩

/-- Environment answering every call successfully with id "x". -/
def envOkX : Env := fun _ => Outcome.ok (some "x")

/-- C9 counterexample: with the management-subnet field absent, the run
does not abort as a fatal contract violation: the dependent management
Prefix creation call is still issued (call index 8), carrying a null
prefix value, and the whole run completes. -/
theorem missing_mgmt_subnet_counterexample :
    ((utils_load_nautobot_data envOkX topoNoMgmt extraEmptyEx).1.get? 8).map
        (fun c => (c.method, c.path, jGet c.body "prefix"))
      = some ("POST", "/api/ipam/prefixes/", some JVal.jnull) ∧
    (utils_load_nautobot_data envOkX topoNoMgmt extraEmptyEx).2 = true ∧
    (utils_load_nautobot_data envOkX topoNoMgmt extraEmptyEx).1.length = 14 :=
  ⟨rfl, rfl, rfl⟩

/-- C9 amended: a missing management-subnet field is not treated as a
fatal contract violation: the .get chain yields None, so the management
Prefix creation call is still issued, with a null prefix value and its
fixed description, and the run proceeds to it whenever the preceding
calls succeed. (Missing required keys in prefix entries or interface
records, by contrast, do abort the run before the dependent call.) -/
theorem missing_mgmt_subnet_amended (env : Env) (topo : TopologyDoc)
    (extra : ExtraVarsDoc)
    (hmgmt : PyDict.find? topo.mgmt "ipv4-subnet" = none)
    (hok : ∀ i, ∃ r, env i = .ok r)
    (hpfx : ∀ pd ∈ extra.prefixes,
      (∃ v, PyDict.find? pd "prefix" = some v) ∧
      ∃ v, PyDict.find? pd "name" = some v) :
    ∃ k c, (utils_load_nautobot_data env topo extra).1.get? k = some c ∧
      c.method = "POST" ∧ c.path = "/api/ipam/prefixes/" ∧
      jGet c.body "prefix" = some JVal.jnull ∧
      jGet c.body "description" = some (JVal.jstr "lab-mgmt-prefix") := by
  obtain ⟨r0, h0⟩ := hok 0
  obtain ⟨r1, h1⟩ := hok 1
  obtain ⟨r2, h2⟩ := hok 2
  obtain ⟨r3, h3⟩ := hok 3
  obtain ⟨r4, h4⟩ := hok 4
  obtain ⟨r5, h5⟩ := hok 5
  obtain ⟨r6, h6⟩ := hok 6
  obtain ⟨r7, h7⟩ := hok 7
  obtain ⟨hplen, hpok, hpcalls⟩ :=
    stagePfx_ok env r7 r4 extra.prefixes 8 hok hpfx
  refine ⟨8 + extra.prefixes.length, mkCall "post" "/api/ipam/prefixes/"
    (mgmtPrefixBody topo r7 r4), ?_, rfl, rfl, ?_, ?_⟩
  · unfold utils_load_nautobot_data
    rw [h0, h1, h2, h3, h4, h5, h6, h7]
    simp only []
    rcases hsp : stagePfx env r7 r4 8 extra.prefixes with ⟨pcs, n1, ok1⟩
    rw [hsp] at hplen hpok hpcalls
    simp only at hplen hpok hpcalls
    subst hpok
    subst hplen
    obtain ⟨rm, hm⟩ := hok (8 + extra.prefixes.length)
    simp only [hsp, hm]
    have hfin : ∀ (N : List CallRec) (cmv : CallRec) (l1 : List CallRec),
        l1.length = 8 + extra.prefixes.length →
        (l1 ++ cmv :: N).get? (8 + extra.prefixes.length) = some cmv := by
      intro N cmv l1 hl
      rw [← hl, List.get?_append_right (Nat.le_refl _)]
      simp
    try rw [← List.append_assoc]
    exact hfin _ _ _ (by
      simp only [List.length_append, List.length_cons, List.length_nil, hpcalls]
      try omega)
  all_goals simp [jGet, mkCall, mgmtPrefixBody, PyDict.find?, hmgmt]

/-- Witness for missing_mgmt_subnet_amended at concrete inputs. -/
theorem missing_mgmt_subnet_amended_witness :
    ∃ k c, (utils_load_nautobot_data envOkX topoNoMgmt extraEmptyEx).1.get? k = some c ∧
      c.method = "POST" ∧ c.path = "/api/ipam/prefixes/" ∧
      jGet c.body "prefix" = some JVal.jnull ∧
      jGet c.body "description" = some (JVal.jstr "lab-mgmt-prefix") :=
  missing_mgmt_subnet_amended envOkX topoNoMgmt extraEmptyEx rfl
    (fun _ => ⟨some "x", rfl⟩) (fun pd hpd => absurd hpd (List.not_mem_nil pd))

/-- C10: a node whose record has no interfaces key, or whose interface
list is empty, still succeeds and yields exactly five calls, in order:
Device creation, management IPAddress creation, management Interface
creation, the IPAddress-to-Interface mapping, and the primary-address
PATCH. -/
theorem node_without_interfaces_five_calls (env : Env)
    (roleId dtId locId stId nsId : Option String) (n : Nat) (node : String)
    (nd : NodeRec)
    (hintf : PyDict.find? nd "interfaces" = none
      ∨ PyDict.find? nd "interfaces" = some (JVal.jlist []))
    (hok : ∀ j, j < 5 → ∃ r, env (n + j) = .ok r) :
    ∃ deviceId,
      env n = .ok deviceId ∧
      (processNode env roleId dtId locId stId nsId n node nd).2.2 = true ∧
      (processNode env roleId dtId locId stId nsId n node nd).2.1 = n + 5 ∧
      (processNode env roleId dtId locId stId nsId n node nd).1.map
          (fun c => (c.method, c.path))
        = [("POST", "/api/dcim/devices/"),
           ("POST", "/api/ipam/ip-addresses/"),
           ("POST", "/api/dcim/interfaces/"),
           ("POST", "/api/ipam/ip-address-to-interface/"),
           ("PATCH", devPatchPath (pyOptStr deviceId))] := by
  obtain ⟨r0, h0⟩ := hok 0 (by omega)
  obtain ⟨r1, h1⟩ := hok 1 (by omega)
  obtain ⟨r2, h2⟩ := hok 2 (by omega)
  obtain ⟨r3, h3⟩ := hok 3 (by omega)
  obtain ⟨r4, h4⟩ := hok 4 (by omega)
  rw [show n + 0 = n from by omega] at h0
  have h1' : env (n + 1) = .ok r1 := h1
  have h2' : env (n + 1 + 1) = .ok r2 := by
    rw [show n + 1 + 1 = n + 2 from by omega]
    exact h2
  have h3' : env (n + 1 + 2) = .ok r3 := by
    rw [show n + 1 + 2 = n + 3 from by omega]
    exact h3
  have h4' : env (n + 1 + 3) = .ok r4 := by
    rw [show n + 1 + 3 = n + 4 from by omega]
    exact h4
  have hitems : jItems ((PyDict.find? nd "interfaces").getD (JVal.jlist [])) = [] := by
    rcases hintf with h | h <;> rw [h] <;> rfl
  refine ⟨r0, h0, ?_⟩
  unfold processNode
  rw [hitems]
  simp only [h0, processIntfs, h1', h2', h3', h4']
  exact ⟨trivial, trivial, rfl⟩

/-- Node record with no interfaces key, used by witnesses. -/
def ndNoIntf : NodeRec :=
  [("kind", JVal.jstr "ceos"), ("mgmt-ipv4", JVal.jstr "172.20.20.2")]

/-- Witness for node_without_interfaces_five_calls at concrete inputs. -/
theorem node_without_interfaces_five_calls_witness :
    ∃ deviceId,
      envOkX 3 = .ok deviceId ∧
      (processNode envOkX (some "r") (some "d") (some "l") (some "s") (some "ns")
        3 "ceos-01" ndNoIntf).2.2 = true ∧
      (processNode envOkX (some "r") (some "d") (some "l") (some "s") (some "ns")
        3 "ceos-01" ndNoIntf).2.1 = 3 + 5 ∧
      (processNode envOkX (some "r") (some "d") (some "l") (some "s") (some "ns")
        3 "ceos-01" ndNoIntf).1.map (fun c => (c.method, c.path))
        = [("POST", "/api/dcim/devices/"),
           ("POST", "/api/ipam/ip-addresses/"),
           ("POST", "/api/dcim/interfaces/"),
           ("POST", "/api/ipam/ip-address-to-interface/"),
           ("PATCH", devPatchPath (pyOptStr deviceId))] :=
  node_without_interfaces_five_calls envOkX (some "r") (some "d") (some "l")
    (some "s") (some "ns") 3 "ceos-01" ndNoIntf (Or.inl rfl)
    (fun _ _ => ⟨some "x", rfl⟩)

/-- The three endpoints used inside the per-interface loop. -/
def intfPaths : List String :=
  ["/api/ipam/ip-addresses/", "/api/dcim/interfaces/",
   "/api/ipam/ip-address-to-interface/"]

theorem ipBody_status (addr : JVal) (stId nsId : Option String) :
    ∀ v, jGet (ipAddressBody addr stId nsId) "status" = some v → v = idRef stId := by
  intro v hv
  simp [ipAddressBody, jGet, PyDict.find?] at hv
  exact hv.symm

theorem intfBody_status (deviceId : Option String) (nameV : JVal)
    (roleV : Option JVal) (stId : Option String) :
    ∀ v, jGet (interfaceBody deviceId nameV roleV stId) "status" = some v →
      v = idRef stId := by
  intro v hv
  simp [interfaceBody, jGet, PyDict.find?] at hv
  exact hv.symm

theorem mgmtIntfBody_status (deviceId stId : Option String) :
    ∀ v, jGet (mgmtInterfaceBody deviceId stId) "status" = some v →
      v = idRef stId := by
  intro v hv
  simp [mgmtInterfaceBody, jGet, PyDict.find?] at hv
  exact hv.symm

theorem deviceBody_status (node : String) (nd : NodeRec)
    (roleId dtId locId stId : Option String) :
    ∀ v, jGet (deviceBody node nd roleId dtId locId stId) "status" = some v →
      v = idRef stId := by
  intro v hv
  simp [deviceBody, jGet, PyDict.find?] at hv
  exact hv.symm

theorem prefixEntryBody_status (cidr : JVal) (nsId stId : Option String)
    (desc : JVal) :
    ∀ v, jGet (prefixEntryBody cidr nsId stId desc) "status" = some v →
      v = idRef stId := by
  intro v hv
  simp [prefixEntryBody, jGet, PyDict.find?] at hv
  exact hv.symm

theorem mgmtPrefixBody_status (topo : TopologyDoc) (nsId stId : Option String) :
    ∀ v, jGet (mgmtPrefixBody topo nsId stId) "status" = some v →
      v = idRef stId := by
  intro v hv
  simp [mgmtPrefixBody, jGet, PyDict.find?] at hv
  exact hv.symm

theorem locationBody_status (ltId stId : Option String) :
    ∀ v, jGet (locationBody ltId stId) "status" = some v → v = idRef stId := by
  intro v hv
  simp [locationBody, jGet, PyDict.find?] at hv
  exact hv.symm

theorem mappingBody_status (a b : Option String) :
    jGet (mappingBody a b) "status" = none := by
  simp [mappingBody, jGet, PyDict.find?]

theorem patchBody_status (m : Option String) :
    jGet (patchBody m) "status" = none := by
  simp [patchBody, jGet, PyDict.find?]

theorem processIntfs_spec (env : Env) (stId nsId deviceId : Option String) :
    ∀ (l : List JVal) (n : Nat) (c : CallRec),
      c ∈ (processIntfs env stId nsId deviceId n l).1 →
      c.method = "POST" ∧ c.path ∈ intfPaths ∧
      ∀ v, jGet c.body "status" = some v → v = idRef stId := by
  intro l
  induction l with
  | nil =>
    intro n c hc
    exact absurd hc (List.not_mem_nil c)
  | cons intf rest ih =>
    intro n c hc
    unfold processIntfs at hc
    cases hi : jGet intf "ipv4" with
    | none =>
      rw [hi] at hc
      exact absurd hc (List.not_mem_nil c)
    | some addr =>
      simp only [hi] at hc
      cases he : env n with
      | err =>
        simp only [he, List.mem_cons, List.not_mem_nil, or_false] at hc
        subst hc
        exact ⟨rfl, by simp [mkCall, intfPaths], ipBody_status addr stId nsId⟩
      | ok ipId =>
        simp only [he] at hc
        cases hn : jGet intf "name" with
        | none =>
          simp only [hn, List.mem_cons, List.not_mem_nil, or_false] at hc
          subst hc
          exact ⟨rfl, by simp [mkCall, intfPaths], ipBody_status addr stId nsId⟩
        | some nameV =>
          simp only [hn] at hc
          cases he1 : env (n + 1) with
          | err =>
            simp only [he1, List.mem_cons, List.not_mem_nil, or_false] at hc
            rcases hc with rfl | rfl
            · exact ⟨rfl, by simp [mkCall, intfPaths], ipBody_status addr stId nsId⟩
            · exact ⟨rfl, by simp [mkCall, intfPaths],
                intfBody_status deviceId nameV (jGet intf "role") stId⟩
          | ok intfId =>
            simp only [he1] at hc
            cases he2 : env (n + 2) with
            | err =>
              simp only [he2, List.mem_cons, List.not_mem_nil, or_false] at hc
              rcases hc with rfl | rfl | rfl
              · exact ⟨rfl, by simp [mkCall, intfPaths], ipBody_status addr stId nsId⟩
              · exact ⟨rfl, by simp [mkCall, intfPaths],
                  intfBody_status deviceId nameV (jGet intf "role") stId⟩
              · exact ⟨rfl, by simp [mkCall, intfPaths], fun v hv => by
                  rw [show jGet (mkCall "post" "/api/ipam/ip-address-to-interface/"
                    (mappingBody ipId intfId)).body "status"
                    = none from mappingBody_status ipId intfId] at hv
                  exact Option.noConfusion hv⟩
            | ok mapId =>
              simp only [he2, List.mem_cons] at hc
              rcases hc with rfl | rfl | rfl | hc
              · exact ⟨rfl, by simp [mkCall, intfPaths], ipBody_status addr stId nsId⟩
              · exact ⟨rfl, by simp [mkCall, intfPaths],
                  intfBody_status deviceId nameV (jGet intf "role") stId⟩
              · exact ⟨rfl, by simp [mkCall, intfPaths], fun v hv => by
                  rw [show jGet (mkCall "post" "/api/ipam/ip-address-to-interface/"
                    (mappingBody ipId intfId)).body "status"
                    = none from mappingBody_status ipId intfId] at hv
                  exact Option.noConfusion hv⟩
              · exact ih (n + 3) c hc

/-- The POST endpoints of the per-node loop. -/
def nodePaths : List String := "/api/dcim/devices/" :: intfPaths

theorem roleBody_status : jGet roleBody "status" = none := by
  simp [roleBody, jGet, PyDict.find?]

theorem manufacturerBody_status : jGet manufacturerBody "status" = none := by
  simp [manufacturerBody, jGet, PyDict.find?]

theorem deviceTypeBody_status : jGet deviceTypeBody "status" = none := by
  simp [deviceTypeBody, jGet, PyDict.find?]

theorem locationTypeBody_status : jGet locationTypeBody "status" = none := by
  simp [locationTypeBody, jGet, PyDict.find?]

theorem statusActiveBody_status : jGet statusActiveBody "status" = none := by
  simp [statusActiveBody, jGet, PyDict.find?]

theorem statusAlertedBody_status : jGet statusAlertedBody "status" = none := by
  simp [statusAlertedBody, jGet, PyDict.find?]

theorem namespaceBody_status : jGet namespaceBody "status" = none := by
  simp [namespaceBody, jGet, PyDict.find?]

theorem devPatchPath_get5 (s : String) :
    (devPatchPath s).data.get? 5 = some 'd' := by
  have h : (devPatchPath s).data
      = "/api/dcim/devices/".data ++ (s.data ++ "/".data) := by
    unfold devPatchPath
    simp [String.data_append]
  rw [h, List.get?_append (by decide)]
  decide

theorem devPatchPath_ne_statuses (s : String) :
    devPatchPath s ≠ "/api/extras/statuses/" := by
  intro h
  have h5 := devPatchPath_get5 s
  rw [h] at h5
  exact absurd h5 (by decide)

theorem processNode_spec (env : Env) (roleId dtId locId stId nsId : Option String)
    (n : Nat) (node : String) (nd : NodeRec) :
    ∀ c ∈ (processNode env roleId dtId locId stId nsId n node nd).1,
      (∀ v, jGet c.body "status" = some v → v = idRef stId) ∧
      ((c.method = "POST" ∧ c.path ∈ nodePaths) ∨
       (c.method = "PATCH" ∧ ∃ s, c.path = devPatchPath s)) := by
  intro c hc
  unfold processNode at hc
  cases he : env n with
  | err =>
    simp only [he, List.mem_cons, List.not_mem_nil, or_false] at hc
    subst hc
    exact ⟨deviceBody_status node nd roleId dtId locId stId,
      Or.inl ⟨rfl, by simp [mkCall, nodePaths, intfPaths]⟩⟩
  | ok deviceId =>
    rcases hpi : processIntfs env stId nsId deviceId (n + 1)
      (jItems ((PyDict.find? nd "interfaces").getD (JVal.jlist []))) with ⟨ics, n1, ok1⟩
    have hics : ∀ c2 ∈ ics, c2.method = "POST" ∧ c2.path ∈ intfPaths ∧
        ∀ v, jGet c2.body "status" = some v → v = idRef stId := by
      intro c2 hc2
      exact processIntfs_spec env stId nsId deviceId _ (n + 1) c2 (by rw [hpi]; exact hc2)
    cases ok1 with
    | false =>
      simp only [he, hpi, List.mem_cons] at hc
      rcases hc with rfl | hc
      · exact ⟨deviceBody_status node nd roleId dtId locId stId,
          Or.inl ⟨rfl, by simp [mkCall, nodePaths, intfPaths]⟩⟩
      · obtain ⟨hm, hp, hs⟩ := hics c hc
        exact ⟨hs, Or.inl ⟨hm, List.mem_cons_of_mem _ hp⟩⟩
    | true =>
      simp only [he, hpi] at hc
      cases he1 : env n1 with
      | err =>
        simp only [he1, List.mem_cons, List.mem_append, List.not_mem_nil, or_false, or_assoc] at hc
        rcases hc with rfl | hc | rfl
        · exact ⟨deviceBody_status node nd roleId dtId locId stId,
            Or.inl ⟨rfl, by simp [mkCall, nodePaths, intfPaths]⟩⟩
        · obtain ⟨hm, hp, hs⟩ := hics c hc
          exact ⟨hs, Or.inl ⟨hm, List.mem_cons_of_mem _ hp⟩⟩
        · exact ⟨ipBody_status _ stId nsId,
            Or.inl ⟨rfl, by simp [mkCall, nodePaths, intfPaths]⟩⟩
      | ok mipId =>
        simp only [he1] at hc
        cases he2 : env (n1 + 1) with
        | err =>
          simp only [he2, List.mem_cons, List.mem_append, List.not_mem_nil, or_false, or_assoc] at hc
          rcases hc with rfl | hc | rfl | rfl
          · exact ⟨deviceBody_status node nd roleId dtId locId stId,
              Or.inl ⟨rfl, by simp [mkCall, nodePaths, intfPaths]⟩⟩
          · obtain ⟨hm, hp, hs⟩ := hics c hc
            exact ⟨hs, Or.inl ⟨hm, List.mem_cons_of_mem _ hp⟩⟩
          · exact ⟨ipBody_status _ stId nsId,
              Or.inl ⟨rfl, by simp [mkCall, nodePaths, intfPaths]⟩⟩
          · exact ⟨mgmtIntfBody_status deviceId stId,
              Or.inl ⟨rfl, by simp [mkCall, nodePaths, intfPaths]⟩⟩
        | ok mintfId =>
          simp only [he2] at hc
          cases he3 : env (n1 + 2) with
          | err =>
            simp only [he3, List.mem_cons, List.mem_append, List.not_mem_nil,
              or_false, or_assoc] at hc
            rcases hc with rfl | hc | rfl | rfl | rfl
            · exact ⟨deviceBody_status node nd roleId dtId locId stId,
                Or.inl ⟨rfl, by simp [mkCall, nodePaths, intfPaths]⟩⟩
            · obtain ⟨hm, hp, hs⟩ := hics c hc
              exact ⟨hs, Or.inl ⟨hm, List.mem_cons_of_mem _ hp⟩⟩
            · exact ⟨ipBody_status _ stId nsId,
                Or.inl ⟨rfl, by simp [mkCall, nodePaths, intfPaths]⟩⟩
            · exact ⟨mgmtIntfBody_status deviceId stId,
                Or.inl ⟨rfl, by simp [mkCall, nodePaths, intfPaths]⟩⟩
            · refine ⟨fun v hv => ?_, Or.inl ⟨rfl, by simp [mkCall, nodePaths, intfPaths]⟩⟩
              rw [show jGet (mkCall "post" "/api/ipam/ip-address-to-interface/"
                (mappingBody mipId mintfId)).body "status"
                = none from mappingBody_status mipId mintfId] at hv
              exact Option.noConfusion hv
          | ok mmapId =>
            simp only [he3] at hc
            cases he4 : env (n1 + 3) with
            | err =>
              simp only [he4, List.mem_cons, List.mem_append, List.not_mem_nil,
                or_false, or_assoc] at hc
              rcases hc with rfl | hc | rfl | rfl | rfl | rfl
              · exact ⟨deviceBody_status node nd roleId dtId locId stId,
                  Or.inl ⟨rfl, by simp [mkCall, nodePaths, intfPaths]⟩⟩
              · obtain ⟨hm, hp, hs⟩ := hics c hc
                exact ⟨hs, Or.inl ⟨hm, List.mem_cons_of_mem _ hp⟩⟩
              · exact ⟨ipBody_status _ stId nsId,
                  Or.inl ⟨rfl, by simp [mkCall, nodePaths, intfPaths]⟩⟩
              · exact ⟨mgmtIntfBody_status deviceId stId,
                  Or.inl ⟨rfl, by simp [mkCall, nodePaths, intfPaths]⟩⟩
              · refine ⟨fun v hv => ?_, Or.inl ⟨rfl, by simp [mkCall, nodePaths, intfPaths]⟩⟩
                rw [show jGet (mkCall "post" "/api/ipam/ip-address-to-interface/"
                  (mappingBody mipId mintfId)).body "status"
                  = none from mappingBody_status mipId mintfId] at hv
                exact Option.noConfusion hv
              · refine ⟨fun v hv => ?_, Or.inr ⟨rfl, pyOptStr deviceId, rfl⟩⟩
                rw [show jGet (mkCall "patch" (devPatchPath (pyOptStr deviceId))
                  (patchBody mipId)).body "status"
                  = none from patchBody_status mipId] at hv
                exact Option.noConfusion hv
            | ok pId =>
              simp only [he4, List.mem_cons, List.mem_append, List.not_mem_nil,
                or_false, or_assoc] at hc
              rcases hc with rfl | hc | rfl | rfl | rfl | rfl
              · exact ⟨deviceBody_status node nd roleId dtId locId stId,
                  Or.inl ⟨rfl, by simp [mkCall, nodePaths, intfPaths]⟩⟩
              · obtain ⟨hm, hp, hs⟩ := hics c hc
                exact ⟨hs, Or.inl ⟨hm, List.mem_cons_of_mem _ hp⟩⟩
              · exact ⟨ipBody_status _ stId nsId,
                  Or.inl ⟨rfl, by simp [mkCall, nodePaths, intfPaths]⟩⟩
              · exact ⟨mgmtIntfBody_status deviceId stId,
                  Or.inl ⟨rfl, by simp [mkCall, nodePaths, intfPaths]⟩⟩
              · refine ⟨fun v hv => ?_, Or.inl ⟨rfl, by simp [mkCall, nodePaths, intfPaths]⟩⟩
                rw [show jGet (mkCall "post" "/api/ipam/ip-address-to-interface/"
                  (mappingBody mipId mintfId)).body "status"
                  = none from mappingBody_status mipId mintfId] at hv
                exact Option.noConfusion hv
              · refine ⟨fun v hv => ?_, Or.inr ⟨rfl, pyOptStr deviceId, rfl⟩⟩
                rw [show jGet (mkCall "patch" (devPatchPath (pyOptStr deviceId))
                  (patchBody mipId)).body "status"
                  = none from patchBody_status mipId] at hv
                exact Option.noConfusion hv

theorem stageNodes_spec (env : Env) (roleId dtId locId stId nsId : Option String) :
    ∀ (nodes : List (String × NodeRec)) (n : Nat),
      ∀ c ∈ (stageNodes env roleId dtId locId stId nsId n nodes).1,
      (∀ v, jGet c.body "status" = some v → v = idRef stId) ∧
      ((c.method = "POST" ∧ c.path ∈ nodePaths) ∨
       (c.method = "PATCH" ∧ ∃ s, c.path = devPatchPath s)) := by
  intro nodes
  induction nodes with
  | nil =>
    intro n c hc
    exact absurd hc (List.not_mem_nil c)
  | cons p rest ih =>
    intro n c hc
    rcases p with ⟨node, nd⟩
    unfold stageNodes at hc
    rcases hpn : processNode env roleId dtId locId stId nsId n node nd
      with ⟨cs, n1, ok1⟩
    have hcs := processNode_spec env roleId dtId locId stId nsId n node nd
    rw [hpn] at hcs
    cases ok1 with
    | false =>
      simp only [hpn] at hc
      exact hcs c hc
    | true =>
      simp only [hpn, List.mem_append] at hc
      rcases hc with hc | hc
      · exact hcs c hc
      · exact ih n1 c hc

theorem stagePfx_spec (env : Env) (nsId stId : Option String) :
    ∀ (l : List NodeRec) (n : Nat),
      ∀ c ∈ (stagePfx env nsId stId n l).1,
      c.method = "POST" ∧ c.path = "/api/ipam/prefixes/" ∧
      ∀ v, jGet c.body "status" = some v → v = idRef stId := by
  intro l
  induction l with
  | nil =>
    intro n c hc
    exact absurd hc (List.not_mem_nil c)
  | cons pd rest ih =>
    intro n c hc
    unfold stagePfx at hc
    cases hp : PyDict.find? pd "prefix" with
    | none =>
      rw [hp] at hc
      exact absurd hc (List.not_mem_nil c)
    | some cidr =>
      cases hn : PyDict.find? pd "name" with
      | none =>
        rw [hp, hn] at hc
        exact absurd hc (List.not_mem_nil c)
      | some nm =>
        simp only [hp, hn] at hc
        cases he : env n with
        | err =>
          simp only [he, List.mem_cons, List.not_mem_nil, or_false] at hc
          subst hc
          exact ⟨rfl, rfl, prefixEntryBody_status cidr nsId stId nm⟩
        | ok rId =>
          simp only [he, List.mem_cons] at hc
          rcases hc with rfl | hc
          · exact ⟨rfl, rfl, prefixEntryBody_status cidr nsId stId nm⟩
          · exact ih (n + 1) c hc

theorem mkCall_body (m p : String) (b : JVal) : (mkCall m p b).body = b := rfl

theorem nodeCall_path_ne_statuses {c : CallRec}
    (h : (c.method = "POST" ∧ c.path ∈ nodePaths) ∨
         (c.method = "PATCH" ∧ ∃ s, c.path = devPatchPath s)) :
    (c.path == "/api/extras/statuses/") = false := by
  rcases h with ⟨_, hp⟩ | ⟨_, s, hp⟩
  · simp only [nodePaths, intfPaths, List.mem_cons, List.not_mem_nil, or_false] at hp
    rcases hp with hp | hp | hp | hp <;> rw [hp] <;> decide
  · rw [hp]
    exact beq_eq_false_iff_ne.mpr (devPatchPath_ne_statuses s)

/-- C8: every run that reaches the status-creation step creates exactly one
active and one alerted Status (the only two POSTs to the statuses
endpoint, in that order), and every payload in the run that carries a
status reference uses the id returned by the active-status call — an id
from that pair. -/
theorem statuses_created_once_and_reused (env : Env) (topo : TopologyDoc)
    (extra : ExtraVarsDoc) (hok : ∀ i, i < 6 → ∃ r, env i = .ok r) :
    (utils_load_nautobot_data env topo extra).1.filter
        (fun c => c.path == "/api/extras/statuses/")
      = [mkCall "post" "/api/extras/statuses/" statusActiveBody,
         mkCall "post" "/api/extras/statuses/" statusAlertedBody] ∧
    ∀ c ∈ (utils_load_nautobot_data env topo extra).1, ∀ v,
      jGet c.body "status" = some v → ∃ r4, env 4 = .ok r4 ∧ v = idRef r4 := by
  obtain ⟨r0, h0⟩ := hok 0 (by omega)
  obtain ⟨r1, h1⟩ := hok 1 (by omega)
  obtain ⟨r2, h2⟩ := hok 2 (by omega)
  obtain ⟨r3, h3⟩ := hok 3 (by omega)
  obtain ⟨r4, h4⟩ := hok 4 (by omega)
  obtain ⟨r5, h5⟩ := hok 5 (by omega)
  unfold utils_load_nautobot_data
  simp only [h0, h1, h2, h3, h4, h5]
  cases he6 : env 6 with
  | err =>
    constructor
    · simp [mkCall]
    · intro c hc v hv
      simp only [List.mem_cons, List.not_mem_nil, or_false] at hc
      rcases hc with rfl | rfl | rfl | rfl | rfl | rfl | rfl
      · rw [mkCall_body, roleBody_status] at hv
        exact Option.noConfusion hv
      · rw [mkCall_body, manufacturerBody_status] at hv
        exact Option.noConfusion hv
      · rw [mkCall_body, deviceTypeBody_status] at hv
        exact Option.noConfusion hv
      · rw [mkCall_body, locationTypeBody_status] at hv
        exact Option.noConfusion hv
      · rw [mkCall_body, statusActiveBody_status] at hv
        exact Option.noConfusion hv
      · rw [mkCall_body, statusAlertedBody_status] at hv
        exact Option.noConfusion hv
      · rw [mkCall_body] at hv
        exact ⟨r4, rfl, locationBody_status r3 r4 v hv⟩
  | ok r6 =>
    cases he7 : env 7 with
    | err =>
      constructor
      · simp [mkCall]
      · intro c hc v hv
        simp only [List.mem_cons, List.not_mem_nil, or_false] at hc
        rcases hc with rfl | rfl | rfl | rfl | rfl | rfl | rfl | rfl
        · rw [mkCall_body, roleBody_status] at hv
          exact Option.noConfusion hv
        · rw [mkCall_body, manufacturerBody_status] at hv
          exact Option.noConfusion hv
        · rw [mkCall_body, deviceTypeBody_status] at hv
          exact Option.noConfusion hv
        · rw [mkCall_body, locationTypeBody_status] at hv
          exact Option.noConfusion hv
        · rw [mkCall_body, statusActiveBody_status] at hv
          exact Option.noConfusion hv
        · rw [mkCall_body, statusAlertedBody_status] at hv
          exact Option.noConfusion hv
        · rw [mkCall_body] at hv
          exact ⟨r4, rfl, locationBody_status r3 r4 v hv⟩
        · rw [mkCall_body, namespaceBody_status] at hv
          exact Option.noConfusion hv
    | ok r7 =>
      rcases hsp : stagePfx env r7 r4 8 extra.prefixes with ⟨pcs, n1, okp⟩
      have hpcsf : pcs.filter (fun c => c.path == "/api/extras/statuses/") = [] := by
        rw [List.filter_eq_nil]
        intro c hc
        obtain ⟨_, hpath, _⟩ := stagePfx_spec env r7 r4 extra.prefixes 8 c
          (by rw [hsp]; exact hc)
        simp [hpath]
      have hpcst : ∀ c ∈ pcs, ∀ v, jGet c.body "status" = some v →
          ∃ rr, Outcome.ok r4 = Outcome.ok rr ∧ v = idRef rr := by
        intro c hc v hv
        obtain ⟨_, _, hst⟩ := stagePfx_spec env r7 r4 extra.prefixes 8 c
          (by rw [hsp]; exact hc)
        exact ⟨r4, rfl, hst v hv⟩
      cases okp with
      | false =>
        simp only [hsp]
        constructor
        · rw [List.filter_append, hpcsf]
          simp [mkCall]
        · intro c hc v hv
          simp only [List.mem_append, List.mem_cons, List.not_mem_nil, or_false,
            or_assoc] at hc
          rcases hc with rfl | rfl | rfl | rfl | rfl | rfl | rfl | rfl | hc
          · rw [mkCall_body, roleBody_status] at hv
            exact Option.noConfusion hv
          · rw [mkCall_body, manufacturerBody_status] at hv
            exact Option.noConfusion hv
          · rw [mkCall_body, deviceTypeBody_status] at hv
            exact Option.noConfusion hv
          · rw [mkCall_body, locationTypeBody_status] at hv
            exact Option.noConfusion hv
          · rw [mkCall_body, statusActiveBody_status] at hv
            exact Option.noConfusion hv
          · rw [mkCall_body, statusAlertedBody_status] at hv
            exact Option.noConfusion hv
          · rw [mkCall_body] at hv
            exact ⟨r4, rfl, locationBody_status r3 r4 v hv⟩
          · rw [mkCall_body, namespaceBody_status] at hv
            exact Option.noConfusion hv
          · exact hpcst c hc v hv
      | true =>
        simp only [hsp]
        cases hem : env n1 with
        | err =>
          constructor
          · rw [List.filter_append, List.filter_append, hpcsf]
            simp [mkCall]
          · intro c hc v hv
            simp only [List.mem_append, List.mem_cons, List.not_mem_nil, or_false,
              or_assoc] at hc
            rcases hc with rfl | rfl | rfl | rfl | rfl | rfl | rfl | rfl | hc | rfl
            · rw [mkCall_body, roleBody_status] at hv
              exact Option.noConfusion hv
            · rw [mkCall_body, manufacturerBody_status] at hv
              exact Option.noConfusion hv
            · rw [mkCall_body, deviceTypeBody_status] at hv
              exact Option.noConfusion hv
            · rw [mkCall_body, locationTypeBody_status] at hv
              exact Option.noConfusion hv
            · rw [mkCall_body, statusActiveBody_status] at hv
              exact Option.noConfusion hv
            · rw [mkCall_body, statusAlertedBody_status] at hv
              exact Option.noConfusion hv
            · rw [mkCall_body] at hv
              exact ⟨r4, rfl, locationBody_status r3 r4 v hv⟩
            · rw [mkCall_body, namespaceBody_status] at hv
              exact Option.noConfusion hv
            · exact hpcst c hc v hv
            · rw [mkCall_body] at hv
              exact ⟨r4, rfl, mgmtPrefixBody_status topo r7 r4 v hv⟩
        | ok rm =>
          have hnodes := stageNodes_spec env r0 r2 r6 r4 r7
            (mergeNodes topo.nodes extra.nodes).1 (n1 + 1)
          have hncsf : (stageNodes env r0 r2 r6 r4 r7 (n1 + 1)
              (mergeNodes topo.nodes extra.nodes).1).1.filter
              (fun c => c.path == "/api/extras/statuses/") = [] := by
            rw [List.filter_eq_nil]
            intro c hc
            obtain ⟨_, hcl⟩ := hnodes c hc
            simp [nodeCall_path_ne_statuses hcl]
          constructor
          · have hcm : ((mkCall "post" "/api/ipam/prefixes/"
                (mgmtPrefixBody topo r7 r4)).path == "/api/extras/statuses/")
                = false := by simp [mkCall]
            simp only [List.filter_append, List.filter_cons, hpcsf, hncsf, hcm,
              Bool.false_eq_true, if_false, List.append_nil]
            simp [mkCall]
          · intro c hc v hv
            simp only [List.mem_append, List.mem_cons, List.not_mem_nil, or_false,
              or_assoc] at hc
            rcases hc with rfl | rfl | rfl | rfl | rfl | rfl | rfl | rfl | hc | rfl | hc
            · rw [mkCall_body, roleBody_status] at hv
              exact Option.noConfusion hv
            · rw [mkCall_body, manufacturerBody_status] at hv
              exact Option.noConfusion hv
            · rw [mkCall_body, deviceTypeBody_status] at hv
              exact Option.noConfusion hv
            · rw [mkCall_body, locationTypeBody_status] at hv
              exact Option.noConfusion hv
            · rw [mkCall_body, statusActiveBody_status] at hv
              exact Option.noConfusion hv
            · rw [mkCall_body, statusAlertedBody_status] at hv
              exact Option.noConfusion hv
            · rw [mkCall_body] at hv
              exact ⟨r4, rfl, locationBody_status r3 r4 v hv⟩
            · rw [mkCall_body, namespaceBody_status] at hv
              exact Option.noConfusion hv
            · exact hpcst c hc v hv
            · rw [mkCall_body] at hv
              exact ⟨r4, rfl, mgmtPrefixBody_status topo r7 r4 v hv⟩
            · obtain ⟨hst, _⟩ := hnodes c hc
              exact ⟨r4, rfl, hst v hv⟩

/-- Witness for statuses_created_once_and_reused at concrete inputs. -/
theorem statuses_created_once_and_reused_witness :
    (utils_load_nautobot_data envOkX topoDocEx extraDocEx).1.filter
        (fun c => c.path == "/api/extras/statuses/")
      = [mkCall "post" "/api/extras/statuses/" statusActiveBody,
         mkCall "post" "/api/extras/statuses/" statusAlertedBody] ∧
    ∀ c ∈ (utils_load_nautobot_data envOkX topoDocEx extraDocEx).1, ∀ v,
      jGet c.body "status" = some v → ∃ r4, envOkX 4 = .ok r4 ∧ v = idRef r4 :=
  statuses_created_once_and_reused envOkX topoDocEx extraDocEx
    (fun _ _ => ⟨some "x", rfl⟩)

/-- C2: the orchestrator never issues a Device-creation call before the
Role, DeviceType, Status and Location creation calls have all returned
successfully: whenever some position p of the trace is a POST to the
devices endpoint, positions 0, 2, 4 and 6 hold the role, device-types,
active-status and locations calls, each with a successful response, and
all of them precede p. -/
theorem device_after_dependencies (env : Env) (topo : TopologyDoc)
    (extra : ExtraVarsDoc) (p : Nat) (c : CallRec)
    (hp : (utils_load_nautobot_data env topo extra).1.get? p = some c)
    (hm : c.method = "POST") (hpath : c.path = "/api/dcim/devices/") :
    ((utils_load_nautobot_data env topo extra).1.get? 0
        = some (mkCall "post" "/api/extras/roles/" roleBody)
      ∧ (∃ r, env 0 = .ok r) ∧ 0 < p) ∧
    ((utils_load_nautobot_data env topo extra).1.get? 2
        = some (mkCall "post" "/api/dcim/device-types/" deviceTypeBody)
      ∧ (∃ r, env 2 = .ok r) ∧ 2 < p) ∧
    ((utils_load_nautobot_data env topo extra).1.get? 4
        = some (mkCall "post" "/api/extras/statuses/" statusActiveBody)
      ∧ (∃ r, env 4 = .ok r) ∧ 4 < p) ∧
    (∃ c6, (utils_load_nautobot_data env topo extra).1.get? 6 = some c6
      ∧ c6.method = "POST" ∧ c6.path = "/api/dcim/locations/"
      ∧ (∃ r, env 6 = .ok r) ∧ 6 < p) := by
  unfold utils_load_nautobot_data at hp ⊢
  cases he0 : env 0 with
  | err =>
    simp only [he0] at hp
    have hcm := List.get?_mem hp
    simp only [List.mem_cons, List.not_mem_nil, or_false] at hcm
    subst hcm
    simp [mkCall] at hpath
  | ok r0 =>
  simp only [he0] at hp ⊢
  cases he1 : env 1 with
  | err =>
    simp only [he1] at hp
    have hcm := List.get?_mem hp
    simp only [List.mem_cons, List.not_mem_nil, or_false] at hcm
    rcases hcm with rfl | rfl <;> simp [mkCall] at hpath
  | ok r1 =>
  simp only [he1] at hp ⊢
  cases he2 : env 2 with
  | err =>
    simp only [he2] at hp
    have hcm := List.get?_mem hp
    simp only [List.mem_cons, List.not_mem_nil, or_false] at hcm
    rcases hcm with rfl | rfl | rfl <;> simp [mkCall] at hpath
  | ok r2 =>
  simp only [he2] at hp ⊢
  cases he3 : env 3 with
  | err =>
    simp only [he3] at hp
    have hcm := List.get?_mem hp
    simp only [List.mem_cons, List.not_mem_nil, or_false] at hcm
    rcases hcm with rfl | rfl | rfl | rfl <;> simp [mkCall] at hpath
  | ok r3 =>
  simp only [he3] at hp ⊢
  cases he4 : env 4 with
  | err =>
    simp only [he4] at hp
    have hcm := List.get?_mem hp
    simp only [List.mem_cons, List.not_mem_nil, or_false] at hcm
    rcases hcm with rfl | rfl | rfl | rfl | rfl <;> simp [mkCall] at hpath
  | ok r4 =>
  simp only [he4] at hp ⊢
  cases he5 : env 5 with
  | err =>
    simp only [he5] at hp
    have hcm := List.get?_mem hp
    simp only [List.mem_cons, List.not_mem_nil, or_false] at hcm
    rcases hcm with rfl | rfl | rfl | rfl | rfl | rfl <;> simp [mkCall] at hpath
  | ok r5 =>
  simp only [he5] at hp ⊢
  cases he6 : env 6 with
  | err =>
    simp only [he6] at hp
    have hcm := List.get?_mem hp
    simp only [List.mem_cons, List.not_mem_nil, or_false] at hcm
    rcases hcm with rfl | rfl | rfl | rfl | rfl | rfl | rfl <;> simp [mkCall] at hpath
  | ok r6 =>
  simp only [he6] at hp ⊢
  cases he7 : env 7 with
  | err =>
    simp only [he7] at hp
    have hcm := List.get?_mem hp
    simp only [List.mem_cons, List.not_mem_nil, or_false] at hcm
    rcases hcm with rfl | rfl | rfl | rfl | rfl | rfl | rfl | rfl <;>
      simp [mkCall] at hpath
  | ok r7 =>
  simp only [he7] at hp ⊢
  rcases hsp : stagePfx env r7 r4 8 extra.prefixes with ⟨pcs, n1, okp⟩
  have hpcspath : ∀ c2 ∈ pcs, c2.path = "/api/ipam/prefixes/" := by
    intro c2 hc2
    obtain ⟨_, hpp, _⟩ := stagePfx_spec env r7 r4 extra.prefixes 8 c2
      (by rw [hsp]; exact hc2)
    exact hpp
  cases okp with
  | false =>
    simp only [hsp] at hp
    have hcm := List.get?_mem hp
    simp only [List.mem_append, List.mem_cons, List.not_mem_nil, or_false,
      or_assoc] at hcm
    rcases hcm with rfl | rfl | rfl | rfl | rfl | rfl | rfl | rfl | hcm
    · simp [mkCall] at hpath
    · simp [mkCall] at hpath
    · simp [mkCall] at hpath
    · simp [mkCall] at hpath
    · simp [mkCall] at hpath
    · simp [mkCall] at hpath
    · simp [mkCall] at hpath
    · simp [mkCall] at hpath
    · rw [hpcspath c hcm] at hpath
      exact absurd hpath (by decide)
  | true =>
    simp only [hsp] at hp ⊢
    cases hem : env n1 with
    | err =>
      simp only [hem] at hp
      have hcm := List.get?_mem hp
      simp only [List.mem_append, List.mem_cons, List.not_mem_nil, or_false,
        or_assoc] at hcm
      rcases hcm with rfl | rfl | rfl | rfl | rfl | rfl | rfl | rfl | hcm | rfl
      · simp [mkCall] at hpath
      · simp [mkCall] at hpath
      · simp [mkCall] at hpath
      · simp [mkCall] at hpath
      · simp [mkCall] at hpath
      · simp [mkCall] at hpath
      · simp [mkCall] at hpath
      · simp [mkCall] at hpath
      · rw [hpcspath c hcm] at hpath
        exact absurd hpath (by decide)
      · simp [mkCall] at hpath
    | ok rm =>
      simp only [hem] at hp ⊢
      have h6p : 6 < p := by
        by_contra hle
        push_neg at hle
        interval_cases p <;>
          · simp only [List.cons_append, List.get?] at hp
            injection hp with hpc
            subst hpc
            simp [mkCall] at hpath
      refine ⟨⟨?_, ⟨r0, rfl⟩, by omega⟩, ⟨?_, ⟨r2, rfl⟩, by omega⟩,
        ⟨?_, ⟨r4, rfl⟩, by omega⟩,
        ⟨mkCall "post" "/api/dcim/locations/" (locationBody r3 r4), ?_, rfl, rfl,
          ⟨r6, rfl⟩, h6p⟩⟩ <;>
        simp only [List.cons_append, List.get?]

/-- Witness for device_after_dependencies at concrete inputs (call 10 of
the concrete run is the Device POST). -/
theorem device_after_dependencies_witness :
    ((utils_load_nautobot_data envOkX topoDocEx extraDocEx).1.get? 0
        = some (mkCall "post" "/api/extras/roles/" roleBody)
      ∧ (∃ r, envOkX 0 = .ok r) ∧ 0 < 10) ∧
    ((utils_load_nautobot_data envOkX topoDocEx extraDocEx).1.get? 2
        = some (mkCall "post" "/api/dcim/device-types/" deviceTypeBody)
      ∧ (∃ r, envOkX 2 = .ok r) ∧ 2 < 10) ∧
    ((utils_load_nautobot_data envOkX topoDocEx extraDocEx).1.get? 4
        = some (mkCall "post" "/api/extras/statuses/" statusActiveBody)
      ∧ (∃ r, envOkX 4 = .ok r) ∧ 4 < 10) ∧
    (∃ c6, (utils_load_nautobot_data envOkX topoDocEx extraDocEx).1.get? 6 = some c6
      ∧ c6.method = "POST" ∧ c6.path = "/api/dcim/locations/"
      ∧ (∃ r, envOkX 6 = .ok r) ∧ 6 < 10) :=
  device_after_dependencies envOkX topoDocEx extraDocEx 10
    (((utils_load_nautobot_data envOkX topoDocEx extraDocEx).1.get? 10).getD
      (mkCall "post" "" JVal.jnull)) rfl rfl rfl

mutual

/-- Every string stored as the value of an "id" field anywhere inside a
JSON payload: the identifiers that a call's body references. -/
def bodyIds : JVal → List String
  | JVal.jnull => []
  | JVal.jbool _ => []
  | JVal.jstr _ => []
  | JVal.jlist items => bodyIdsList items
  | JVal.jmap es => bodyIdsEntries es

/-- bodyIds over the elements of a JSON array. -/
def bodyIdsList : List JVal → List String
  | [] => []
  | j :: rest => bodyIds j ++ bodyIdsList rest

/-- bodyIds over the entries of a JSON object. -/
def bodyIdsEntries : List (String × JVal) → List String
  | [] => []
  | (k, v) :: rest =>
    (if k = "id" then
      (match v with
        | JVal.jstr s => [s]
        | _ => []) else [])
      ++ bodyIds v ++ bodyIdsEntries rest

end

/-- The id list contributed by one optional identifier. -/
def optIds : Option String → List String
  | none => []
  | some s => [s]

theorem bodyIds_idRef (i : Option String) : bodyIds (idRef i) = optIds i := by
  cases i <;> rfl

/-- A YAML mapping none of whose values references any id. -/
def cleanRec (r : NodeRec) : Prop := ∀ p ∈ r, bodyIds p.2 = []

theorem find?_mem_values {α : Type} {d : List (String × α)} {k : String} {v : α}
    (h : PyDict.find? d k = some v) : ∃ k2, (k2, v) ∈ d := by
  induction d with
  | nil => exact Option.noConfusion h
  | cons p rest ih =>
    by_cases hp : p.1 == k
    · refine ⟨p.1, ?_⟩
      simp only [PyDict.find?, hp, if_true] at h
      injection h with h2
      subst h2
      exact List.mem_cons_self p rest
    · simp only [PyDict.find?, hp] at h
      simp only [Bool.false_eq_true, if_false] at h
      rcases ih h with ⟨k2, hk2⟩
      exact ⟨k2, List.mem_cons_of_mem p hk2⟩

theorem clean_value {nd : NodeRec} (hc : cleanRec nd) {k : String} {v : JVal}
    (h : PyDict.find? nd k = some v) : bodyIds v = [] := by
  rcases find?_mem_values h with ⟨k2, hk2⟩
  exact hc (k2, v) hk2

theorem clean_getD {nd : NodeRec} (hc : cleanRec nd) (k : String) :
    bodyIds ((PyDict.find? nd k).getD JVal.jnull) = [] := by
  cases h : PyDict.find? nd k with
  | none => rfl
  | some v => exact clean_value hc h

theorem cleanEntries_value {es : List (String × JVal)}
    (hc : bodyIdsEntries es = []) {k : String} {v : JVal}
    (h : PyDict.find? es k = some v) : bodyIds v = [] := by
  induction es with
  | nil => exact Option.noConfusion h
  | cons p rest ih =>
    rcases p with ⟨k2, v2⟩
    simp only [bodyIdsEntries, List.append_eq_nil] at hc
    by_cases hp : k2 == k
    · simp only [PyDict.find?, hp, if_true] at h
      injection h with h2
      subst h2
      exact hc.1.2
    · simp only [PyDict.find?, hp, Bool.false_eq_true, if_false] at h
      exact ih hc.2 h

theorem clean_jGet {j : JVal} (hj : bodyIds j = []) {k : String} {v : JVal}
    (h : jGet j k = some v) : bodyIds v = [] := by
  cases j with
  | jmap es => exact cleanEntries_value hj h
  | jnull => exact Option.noConfusion h
  | jbool b => exact Option.noConfusion h
  | jstr s => exact Option.noConfusion h
  | jlist l => exact Option.noConfusion h

theorem clean_jGet_getD {j : JVal} (hj : bodyIds j = []) (k : String) :
    bodyIds ((jGet j k).getD JVal.jnull) = [] := by
  cases h : jGet j k with
  | none => rfl
  | some v => exact clean_jGet hj h

theorem clean_items {l : List JVal} (hl : bodyIdsList l = []) :
    ∀ j ∈ l, bodyIds j = [] := by
  induction l with
  | nil => intro j hj; exact absurd hj (List.not_mem_nil j)
  | cons a rest ih =>
    intro j hj
    simp only [bodyIdsList, List.append_eq_nil] at hl
    rcases List.mem_cons.mp hj with rfl | hj
    · exact hl.1
    · exact ih hl.2 j hj

theorem mem_optIds {s : String} {x : Option String} :
    s ∈ optIds x ↔ x = some s := by
  cases x <;> simp [optIds, eq_comm]

theorem or_shift4 {a b c x y : Prop} (h : a ∨ b ∨ c ∨ x) (hxy : x → y) :
    a ∨ b ∨ c ∨ y :=
  h.imp id (fun h2 => h2.imp id (fun h3 => h3.imp id hxy))

theorem or_shift6 {a b c d e x y : Prop} (h : a ∨ b ∨ c ∨ d ∨ e ∨ x)
    (hxy : x → y) : a ∨ b ∨ c ∨ d ∨ e ∨ y :=
  h.imp id (fun h2 => h2.imp id (fun h3 => h3.imp id (fun h4 =>
    h4.imp id (fun h5 => h5.imp id hxy))))

theorem bodyIds_jnull : bodyIds JVal.jnull = [] := rfl

theorem bodyIds_jbool (b : Bool) : bodyIds (JVal.jbool b) = [] := rfl

theorem bodyIds_jstr (s : String) : bodyIds (JVal.jstr s) = [] := rfl

theorem bodyIds_jmap (es : List (String × JVal)) :
    bodyIds (JVal.jmap es) = bodyIdsEntries es := rfl

theorem bodyIds_jlist (l : List JVal) :
    bodyIds (JVal.jlist l) = bodyIdsList l := rfl

theorem deviceBody_ids {node : String} {nd : NodeRec}
    {roleId dtId locId stId : Option String} (hc : cleanRec nd) :
    ∀ s ∈ bodyIds (deviceBody node nd roleId dtId locId stId),
      roleId = some s ∨ dtId = some s ∨ locId = some s ∨ stId = some s := by
  intro s hs
  have h1 := clean_getD hc "kind"
  have h2 := clean_getD hc "mgmt-ipv4"
  simp only [deviceBody, bodyIds_jmap, bodyIds_jstr, bodyIds_jnull,
    bodyIdsEntries, bodyIdsList, bodyIds_idRef,
    h1, h2, List.mem_append, List.append_nil, List.nil_append, mem_optIds,
    List.not_mem_nil, or_false, false_or, if_false, if_true,
    String.reduceEq, reduceIte] at hs
  tauto

theorem ipAddressBody_ids {addr : JVal} {stId nsId : Option String}
    (haddr : bodyIds addr = []) :
    ∀ s ∈ bodyIds (ipAddressBody addr stId nsId),
      stId = some s ∨ nsId = some s := by
  intro s hs
  simp only [ipAddressBody, bodyIds_jmap, bodyIds_jstr, bodyIds_jnull, bodyIds_jbool,
    bodyIdsEntries, bodyIdsList, bodyIds_idRef,
    haddr, List.mem_append, List.append_nil, List.nil_append, mem_optIds,
    List.not_mem_nil, or_false, false_or, String.reduceEq, reduceIte] at hs
  tauto

theorem interfaceBody_ids {deviceId stId : Option String} {nameV : JVal}
    {roleV : Option JVal} (hname : bodyIds nameV = [])
    (hrole : bodyIds (roleV.getD JVal.jnull) = []) :
    ∀ s ∈ bodyIds (interfaceBody deviceId nameV roleV stId),
      deviceId = some s ∨ stId = some s := by
  intro s hs
  simp only [interfaceBody, bodyIds_jmap, bodyIds_jstr, bodyIds_jnull, bodyIds_jbool,
    bodyIdsEntries, bodyIdsList, bodyIds_idRef,
    hname, hrole, List.mem_append, List.append_nil, List.nil_append, mem_optIds,
    List.not_mem_nil, or_false, false_or, String.reduceEq, reduceIte] at hs
  tauto

theorem mgmtInterfaceBody_ids {deviceId stId : Option String} :
    ∀ s ∈ bodyIds (mgmtInterfaceBody deviceId stId),
      deviceId = some s ∨ stId = some s := by
  intro s hs
  simp only [mgmtInterfaceBody, bodyIds_jmap, bodyIds_jstr, bodyIds_jnull, bodyIds_jbool,
    bodyIdsEntries, bodyIdsList,
    bodyIds_idRef, List.mem_append, List.append_nil, List.nil_append, mem_optIds,
    List.not_mem_nil, or_false, false_or, String.reduceEq, reduceIte] at hs
  tauto

theorem mappingBody_ids {ipId intfId : Option String} :
    ∀ s ∈ bodyIds (mappingBody ipId intfId),
      ipId = some s ∨ intfId = some s := by
  intro s hs
  simp only [mappingBody, bodyIds_jmap, bodyIds_jstr, bodyIds_jnull, bodyIds_jbool,
    bodyIdsEntries, bodyIdsList, bodyIds_idRef,
    List.mem_append, List.append_nil, List.nil_append, mem_optIds,
    List.not_mem_nil, or_false, false_or, String.reduceEq, reduceIte] at hs
  tauto

theorem patchBody_ids {mgmtIpId : Option String} :
    ∀ s ∈ bodyIds (patchBody mgmtIpId), mgmtIpId = some s := by
  intro s hs
  simp only [patchBody, bodyIds_jmap, bodyIds_jstr, bodyIds_jnull, bodyIds_jbool,
    bodyIdsEntries, bodyIdsList, bodyIds_idRef,
    List.mem_append, List.append_nil, List.nil_append, mem_optIds,
    List.not_mem_nil, or_false, false_or, String.reduceEq, reduceIte] at hs
  exact hs

theorem clean_jItems {v : JVal} (hv : bodyIds v = []) :
    ∀ j ∈ jItems v, bodyIds j = [] := by
  cases v with
  | jlist l =>
    rw [bodyIds_jlist] at hv
    exact clean_items hv
  | jnull => intro j hj; exact absurd hj (List.not_mem_nil j)
  | jbool b => intro j hj; exact absurd hj (List.not_mem_nil j)
  | jstr s => intro j hj; exact absurd hj (List.not_mem_nil j)
  | jmap es => intro j hj; exact absurd hj (List.not_mem_nil j)

theorem clean_interfaces {nd : NodeRec} (hc : cleanRec nd) :
    ∀ j ∈ jItems ((PyDict.find? nd "interfaces").getD (JVal.jlist [])),
      bodyIds j = [] := by
  cases h : PyDict.find? nd "interfaces" with
  | none =>
    intro j hj
    exact absurd hj (List.not_mem_nil j)
  | some v =>
    exact clean_jItems (clean_value hc h)

theorem processIntfs_len (env : Env) (stId nsId deviceId : Option String) :
    ∀ (l : List JVal) (n : Nat),
      (processIntfs env stId nsId deviceId n l).2.1
        = n + (processIntfs env stId nsId deviceId n l).1.length
  | [], n => by simp [processIntfs]
  | intf :: rest, n => by
    unfold processIntfs
    cases h1 : jGet intf "ipv4" with
    | none => simp only [h1]; simp
    | some addr =>
      simp only [h1]
      cases h2 : env n with
      | err => simp only [h2]; simp
      | ok ipId =>
        simp only [h2]
        cases h3 : jGet intf "name" with
        | none => simp only [h3]; simp
        | some nameV =>
          simp only [h3]
          cases h4 : env (n + 1) with
          | err => simp only [h4]; simp
          | ok intfId =>
            simp only [h4]
            cases h5 : env (n + 2) with
            | err => simp only [h5]; simp
            | ok r2 =>
              simp only [h5, List.length_cons]
              have ih := processIntfs_len env stId nsId deviceId rest (n + 3)
              omega

theorem processIntfs_ids (env : Env) (stId nsId deviceId : Option String) :
    ∀ (l : List JVal) (n : Nat), (∀ j ∈ l, bodyIds j = []) →
      ∀ c ∈ (processIntfs env stId nsId deviceId n l).1, ∀ s ∈ bodyIds c.body,
        stId = some s ∨ nsId = some s ∨ deviceId = some s ∨
          ∃ j, n ≤ j ∧ env j = .ok (some s)
  | [], _, _, c, hc => absurd hc (List.not_mem_nil c)
  | intf :: rest, n, hcl, c, hc => by
    have hintf : bodyIds intf = [] := hcl intf (List.mem_cons_self intf rest)
    unfold processIntfs at hc
    cases h1 : jGet intf "ipv4" with
    | none =>
      simp only [h1] at hc
      exact absurd hc (List.not_mem_nil c)
    | some addr =>
      simp only [h1] at hc
      have haddr : bodyIds addr = [] := clean_jGet hintf h1
      have hip : ∀ s ∈ bodyIds (ipAddressBody addr stId nsId),
          stId = some s ∨ nsId = some s ∨ deviceId = some s ∨
            ∃ j, n ≤ j ∧ env j = .ok (some s) := by
        intro s hs
        rcases ipAddressBody_ids haddr s hs with h | h
        · exact Or.inl h
        · exact Or.inr (Or.inl h)
      cases h2 : env n with
      | err =>
        simp only [h2, List.mem_cons, List.not_mem_nil, or_false] at hc
        subst hc
        exact hip
      | ok ipId =>
        simp only [h2] at hc
        cases h3 : jGet intf "name" with
        | none =>
          simp only [h3, List.mem_cons, List.not_mem_nil, or_false] at hc
          subst hc
          exact hip
        | some nameV =>
          simp only [h3] at hc
          have hin : ∀ s ∈ bodyIds
              (interfaceBody deviceId nameV (jGet intf "role") stId),
              stId = some s ∨ nsId = some s ∨ deviceId = some s ∨
                ∃ j, n ≤ j ∧ env j = .ok (some s) := by
            intro s hs
            rcases interfaceBody_ids (clean_jGet hintf h3)
                (clean_jGet_getD hintf "role") s hs with h | h
            · exact Or.inr (Or.inr (Or.inl h))
            · exact Or.inl h
          cases h4 : env (n + 1) with
          | err =>
            simp only [h4, List.mem_cons, List.not_mem_nil, or_false] at hc
            rcases hc with rfl | rfl
            · exact hip
            · exact hin
          | ok intfId =>
            simp only [h4] at hc
            have hmap : ∀ s ∈ bodyIds (mappingBody ipId intfId),
                stId = some s ∨ nsId = some s ∨ deviceId = some s ∨
                  ∃ j, n ≤ j ∧ env j = .ok (some s) := by
              intro s hs
              rcases mappingBody_ids s hs with h | h
              · subst h
                exact Or.inr (Or.inr (Or.inr ⟨n, Nat.le_refl n, h2⟩))
              · subst h
                exact Or.inr (Or.inr (Or.inr ⟨n + 1, Nat.le_add_right n 1, h4⟩))
            cases h5 : env (n + 2) with
            | err =>
              simp only [h5, List.mem_cons, List.not_mem_nil, or_false] at hc
              rcases hc with rfl | rfl | rfl
              · exact hip
              · exact hin
              · exact hmap
            | ok r2 =>
              simp only [h5, List.mem_cons] at hc
              rcases hc with rfl | rfl | rfl | hc
              · exact hip
              · exact hin
              · exact hmap
              · intro s hs
                have h := processIntfs_ids env stId nsId deviceId rest (n + 3)
                  (fun j hj => hcl j (List.mem_cons_of_mem intf hj)) c hc s hs
                have hshift : (∃ j, n + 3 ≤ j ∧ env j = .ok (some s)) →
                    ∃ j, n ≤ j ∧ env j = .ok (some s) := by
                  intro hj
                  rcases hj with ⟨j, hj1, hj2⟩
                  exact ⟨j, by omega, hj2⟩
                exact or_shift4 h hshift

theorem processNode_shape (env : Env) (roleId dtId locId stId nsId : Option String)
    (n : Nat) (node : String) (nd : NodeRec) :
    (processNode env roleId dtId locId stId nsId n node nd).2.1
      = n + (processNode env roleId dtId locId stId nsId n node nd).1.length ∧
    ∃ posts patchPart,
      (processNode env roleId dtId locId stId nsId n node nd).1
        = posts ++ patchPart ∧
      (∀ c ∈ posts, c.method = "POST") ∧
      (patchPart = [] ∨ ∃ os b, env n = .ok os ∧
        patchPart = [mkCall "patch" (devPatchPath (pyOptStr os)) b]) := by
  unfold processNode
  cases he : env n with
  | err =>
    simp only [he]
    refine ⟨by simp,
      [mkCall "post" "/api/dcim/devices/" (deviceBody node nd roleId dtId locId stId)],
      [], by simp, ?_, Or.inl rfl⟩
    intro c hc
    rcases List.mem_cons.mp hc with rfl | hc
    · rfl
    · exact absurd hc (List.not_mem_nil c)
  | ok deviceId =>
    simp only [he]
    rcases hpi : processIntfs env stId nsId deviceId (n + 1)
        (jItems ((PyDict.find? nd "interfaces").getD (JVal.jlist []))) with
      ⟨ics, n1, okf⟩
    have hlen : n1 = (n + 1) + ics.length := by
      have h := processIntfs_len env stId nsId deviceId
        (jItems ((PyDict.find? nd "interfaces").getD (JVal.jlist []))) (n + 1)
      rw [hpi] at h
      exact h
    have hpost : ∀ c ∈ ics, c.method = "POST" := by
      intro c hc
      have h := processIntfs_spec env stId nsId deviceId
        (jItems ((PyDict.find? nd "interfaces").getD (JVal.jlist []))) (n + 1) c
      rw [hpi] at h
      exact (h hc).1
    have hdev : ∀ c ∈ mkCall "post" "/api/dcim/devices/"
        (deviceBody node nd roleId dtId locId stId) :: ics, c.method = "POST" := by
      intro c hc
      rcases List.mem_cons.mp hc with rfl | hc
      · rfl
      · exact hpost c hc
    cases okf with
    | false =>
      simp only [hpi]
      refine ⟨?_, mkCall "post" "/api/dcim/devices/"
          (deviceBody node nd roleId dtId locId stId) :: ics, [],
        by simp, hdev, Or.inl rfl⟩
      simp only [List.length_cons]
      omega
    | true =>
      simp only [hpi]
      cases h2 : env n1 with
      | err =>
        simp only [h2]
        refine ⟨?_, mkCall "post" "/api/dcim/devices/"
            (deviceBody node nd roleId dtId locId stId) :: ics
            ++ [mkCall "post" "/api/ipam/ip-addresses/"
              (ipAddressBody ((PyDict.find? nd "mgmt-ipv4").getD JVal.jnull) stId nsId)],
          [], by simp, ?_, Or.inl rfl⟩
        · simp only [List.length_cons, List.length_append, List.length_cons,
            List.length_nil]
          omega
        · intro c hc
          simp only [List.mem_append, List.mem_cons, List.not_mem_nil, or_false,
            or_assoc] at hc
          rcases hc with rfl | hc | rfl
          · rfl
          · exact hpost c hc
          · rfl
      | ok mipId =>
        simp only [h2]
        cases h3 : env (n1 + 1) with
        | err =>
          simp only [h3]
          refine ⟨?_, mkCall "post" "/api/dcim/devices/"
              (deviceBody node nd roleId dtId locId stId) :: ics
              ++ [mkCall "post" "/api/ipam/ip-addresses/"
                (ipAddressBody ((PyDict.find? nd "mgmt-ipv4").getD JVal.jnull) stId nsId),
                mkCall "post" "/api/dcim/interfaces/" (mgmtInterfaceBody deviceId stId)],
            [], by simp, ?_, Or.inl rfl⟩
          · simp only [List.length_cons, List.length_append, List.length_cons,
              List.length_nil]
            omega
          · intro c hc
            simp only [List.mem_append, List.mem_cons, List.not_mem_nil, or_false,
              or_assoc] at hc
            rcases hc with rfl | hc | rfl | rfl
            · rfl
            · exact hpost c hc
            · rfl
            · rfl
        | ok mintfId =>
          simp only [h3]
          cases h4 : env (n1 + 2) with
          | err =>
            simp only [h4]
            refine ⟨?_, mkCall "post" "/api/dcim/devices/"
                (deviceBody node nd roleId dtId locId stId) :: ics
                ++ [mkCall "post" "/api/ipam/ip-addresses/"
                  (ipAddressBody ((PyDict.find? nd "mgmt-ipv4").getD JVal.jnull) stId nsId),
                  mkCall "post" "/api/dcim/interfaces/" (mgmtInterfaceBody deviceId stId),
                  mkCall "post" "/api/ipam/ip-address-to-interface/"
                    (mappingBody mipId mintfId)],
              [], by simp, ?_, Or.inl rfl⟩
            · simp only [List.length_cons, List.length_append, List.length_cons,
                List.length_nil]
              omega
            · intro c hc
              simp only [List.mem_append, List.mem_cons, List.not_mem_nil, or_false,
                or_assoc] at hc
              rcases hc with rfl | hc | rfl | rfl | rfl
              · rfl
              · exact hpost c hc
              · rfl
              · rfl
              · rfl
          | ok r3 =>
            simp only [h4]
            have hshape : ∀ okfin : Bool,
                (mkCall "post" "/api/dcim/devices/"
                  (deviceBody node nd roleId dtId locId stId) :: ics
                ++ [mkCall "post" "/api/ipam/ip-addresses/"
                    (ipAddressBody ((PyDict.find? nd "mgmt-ipv4").getD JVal.jnull) stId nsId),
                  mkCall "post" "/api/dcim/interfaces/" (mgmtInterfaceBody deviceId stId),
                  mkCall "post" "/api/ipam/ip-address-to-interface/"
                    (mappingBody mipId mintfId),
                  mkCall "patch" (devPatchPath (pyOptStr deviceId)) (patchBody mipId)],
                  n1 + 4, okfin).2.1
                  = n + (mkCall "post" "/api/dcim/devices/"
                    (deviceBody node nd roleId dtId locId stId) :: ics
                  ++ [mkCall "post" "/api/ipam/ip-addresses/"
                      (ipAddressBody ((PyDict.find? nd "mgmt-ipv4").getD JVal.jnull) stId nsId),
                    mkCall "post" "/api/dcim/interfaces/" (mgmtInterfaceBody deviceId stId),
                    mkCall "post" "/api/ipam/ip-address-to-interface/"
                      (mappingBody mipId mintfId),
                    mkCall "patch" (devPatchPath (pyOptStr deviceId)) (patchBody mipId)]).length ∧
                ∃ posts patchPart,
                  (mkCall "post" "/api/dcim/devices/"
                    (deviceBody node nd roleId dtId locId stId) :: ics
                  ++ [mkCall "post" "/api/ipam/ip-addresses/"
                      (ipAddressBody ((PyDict.find? nd "mgmt-ipv4").getD JVal.jnull) stId nsId),
                    mkCall "post" "/api/dcim/interfaces/" (mgmtInterfaceBody deviceId stId),
                    mkCall "post" "/api/ipam/ip-address-to-interface/"
                      (mappingBody mipId mintfId),
                    mkCall "patch" (devPatchPath (pyOptStr deviceId)) (patchBody mipId)])
                    = posts ++ patchPart ∧
                  (∀ c ∈ posts, c.method = "POST") ∧
                  (patchPart = [] ∨ ∃ os b, Outcome.ok deviceId = .ok os ∧
                    patchPart = [mkCall "patch" (devPatchPath (pyOptStr os)) b]) := by
              intro okfin
              refine ⟨?_, mkCall "post" "/api/dcim/devices/"
                  (deviceBody node nd roleId dtId locId stId) :: ics
                ++ [mkCall "post" "/api/ipam/ip-addresses/"
                    (ipAddressBody ((PyDict.find? nd "mgmt-ipv4").getD JVal.jnull) stId nsId),
                  mkCall "post" "/api/dcim/interfaces/" (mgmtInterfaceBody deviceId stId),
                  mkCall "post" "/api/ipam/ip-address-to-interface/"
                    (mappingBody mipId mintfId)],
                [mkCall "patch" (devPatchPath (pyOptStr deviceId)) (patchBody mipId)],
                by simp, ?_, Or.inr ⟨deviceId, patchBody mipId, rfl, rfl⟩⟩
              · simp only [List.length_cons, List.length_append, List.length_cons,
                  List.length_nil]
                omega
              · intro c hc
                simp only [List.mem_append, List.mem_cons, List.not_mem_nil, or_false,
                  or_assoc] at hc
                rcases hc with rfl | hc | rfl | rfl | rfl
                · rfl
                · exact hpost c hc
                · rfl
                · rfl
                · rfl
            cases h5 : env (n1 + 3) with
            | err =>
              simp only [h5]
              exact hshape false
            | ok r4 =>
              simp only [h5]
              exact hshape true

theorem processNode_ids (env : Env) (roleId dtId locId stId nsId : Option String)
    (n : Nat) (node : String) (nd : NodeRec) (hcr : cleanRec nd) :
    ∀ c ∈ (processNode env roleId dtId locId stId nsId n node nd).1,
      ∀ s ∈ bodyIds c.body,
        roleId = some s ∨ dtId = some s ∨ locId = some s ∨ stId = some s ∨
          nsId = some s ∨ ∃ j, n ≤ j ∧ env j = .ok (some s) := by
  have hdev : ∀ s ∈ bodyIds (deviceBody node nd roleId dtId locId stId),
      roleId = some s ∨ dtId = some s ∨ locId = some s ∨ stId = some s ∨
        nsId = some s ∨ ∃ j, n ≤ j ∧ env j = .ok (some s) := by
    intro s hs
    rcases deviceBody_ids hcr s hs with h | h | h | h
    · exact Or.inl h
    · exact Or.inr (Or.inl h)
    · exact Or.inr (Or.inr (Or.inl h))
    · exact Or.inr (Or.inr (Or.inr (Or.inl h)))
  have hmip : ∀ s ∈ bodyIds
      (ipAddressBody ((PyDict.find? nd "mgmt-ipv4").getD JVal.jnull) stId nsId),
      roleId = some s ∨ dtId = some s ∨ locId = some s ∨ stId = some s ∨
        nsId = some s ∨ ∃ j, n ≤ j ∧ env j = .ok (some s) := by
    intro s hs
    rcases ipAddressBody_ids (clean_getD hcr "mgmt-ipv4") s hs with h | h
    · exact Or.inr (Or.inr (Or.inr (Or.inl h)))
    · exact Or.inr (Or.inr (Or.inr (Or.inr (Or.inl h))))
  intro c hc
  unfold processNode at hc
  cases he : env n with
  | err =>
    simp only [he, List.mem_cons, List.not_mem_nil, or_false] at hc
    subst hc
    exact hdev
  | ok deviceId =>
    simp only [he] at hc
    rcases hpi : processIntfs env stId nsId deviceId (n + 1)
        (jItems ((PyDict.find? nd "interfaces").getD (JVal.jlist []))) with
      ⟨ics, n1, okf⟩
    have hlen : n1 = (n + 1) + ics.length := by
      have h := processIntfs_len env stId nsId deviceId
        (jItems ((PyDict.find? nd "interfaces").getD (JVal.jlist []))) (n + 1)
      rw [hpi] at h
      exact h
    have hics : ∀ c2 ∈ ics, ∀ s ∈ bodyIds c2.body,
        roleId = some s ∨ dtId = some s ∨ locId = some s ∨ stId = some s ∨
          nsId = some s ∨ ∃ j, n ≤ j ∧ env j = .ok (some s) := by
      intro c2 hc2 s hs
      have h := processIntfs_ids env stId nsId deviceId
        (jItems ((PyDict.find? nd "interfaces").getD (JVal.jlist []))) (n + 1)
        (clean_interfaces hcr) c2
      rw [hpi] at h
      have h2 := h hc2 s hs
      have hdevshift : deviceId = some s →
          ∃ j, n ≤ j ∧ env j = .ok (some s) := by
        intro hds
        rw [hds] at he
        exact ⟨n, Nat.le_refl n, he⟩
      have hshift : (∃ j, n + 1 ≤ j ∧ env j = .ok (some s)) →
          ∃ j, n ≤ j ∧ env j = .ok (some s) := by
        intro hj
        rcases hj with ⟨j, hj1, hj2⟩
        exact ⟨j, by omega, hj2⟩
      rcases h2 with h | h | h | h
      · exact Or.inr (Or.inr (Or.inr (Or.inl h)))
      · exact Or.inr (Or.inr (Or.inr (Or.inr (Or.inl h))))
      · exact Or.inr (Or.inr (Or.inr (Or.inr (Or.inr (hdevshift h)))))
      · exact Or.inr (Or.inr (Or.inr (Or.inr (Or.inr (hshift h)))))
    have hmintf : ∀ s ∈ bodyIds (mgmtInterfaceBody deviceId stId),
        roleId = some s ∨ dtId = some s ∨ locId = some s ∨ stId = some s ∨
          nsId = some s ∨ ∃ j, n ≤ j ∧ env j = .ok (some s) := by
      intro s hs
      rcases mgmtInterfaceBody_ids s hs with h | h
      · subst h
        exact Or.inr (Or.inr (Or.inr (Or.inr (Or.inr
          ⟨n, Nat.le_refl n, he⟩))))
      · exact Or.inr (Or.inr (Or.inr (Or.inl h)))
    cases okf with
    | false =>
      simp only [hpi, List.mem_cons] at hc
      rcases hc with rfl | hc
      · exact hdev
      · exact hics c hc
    | true =>
      simp only [hpi] at hc
      cases h2 : env n1 with
      | err =>
        simp only [h2, List.mem_cons, List.mem_append, List.not_mem_nil, or_false,
          or_assoc] at hc
        rcases hc with rfl | hc | rfl
        · exact hdev
        · exact hics c hc
        · exact hmip
      | ok mipId =>
        simp only [h2] at hc
        have hpc : ∀ s ∈ bodyIds (patchBody mipId),
            roleId = some s ∨ dtId = some s ∨ locId = some s ∨ stId = some s ∨
              nsId = some s ∨ ∃ j, n ≤ j ∧ env j = .ok (some s) := by
          intro s hs
          have h := patchBody_ids s hs
          subst h
          exact Or.inr (Or.inr (Or.inr (Or.inr (Or.inr ⟨n1, by omega, h2⟩))))
        cases h3 : env (n1 + 1) with
        | err =>
          simp only [h3, List.mem_cons, List.mem_append, List.not_mem_nil, or_false,
            or_assoc] at hc
          rcases hc with rfl | hc | rfl | rfl
          · exact hdev
          · exact hics c hc
          · exact hmip
          · exact hmintf
        | ok mintfId =>
          simp only [h3] at hc
          have hmm : ∀ s ∈ bodyIds (mappingBody mipId mintfId),
              roleId = some s ∨ dtId = some s ∨ locId = some s ∨ stId = some s ∨
                nsId = some s ∨ ∃ j, n ≤ j ∧ env j = .ok (some s) := by
            intro s hs
            rcases mappingBody_ids s hs with h | h
            · subst h
              exact Or.inr (Or.inr (Or.inr (Or.inr (Or.inr ⟨n1, by omega, h2⟩))))
            · subst h
              exact Or.inr (Or.inr (Or.inr (Or.inr (Or.inr
                ⟨n1 + 1, by omega, h3⟩))))
          cases h4 : env (n1 + 2) with
          | err =>
            simp only [h4, List.mem_cons, List.mem_append, List.not_mem_nil,
              or_false, or_assoc] at hc
            rcases hc with rfl | hc | rfl | rfl | rfl
            · exact hdev
            · exact hics c hc
            · exact hmip
            · exact hmintf
            · exact hmm
          | ok r3 =>
            simp only [h4] at hc
            have hfin : c ∈ mkCall "post" "/api/dcim/devices/"
                (deviceBody node nd roleId dtId locId stId) :: ics
                ++ [mkCall "post" "/api/ipam/ip-addresses/"
                  (ipAddressBody ((PyDict.find? nd "mgmt-ipv4").getD JVal.jnull) stId nsId),
                  mkCall "post" "/api/dcim/interfaces/" (mgmtInterfaceBody deviceId stId),
                  mkCall "post" "/api/ipam/ip-address-to-interface/"
                    (mappingBody mipId mintfId),
                  mkCall "patch" (devPatchPath (pyOptStr deviceId)) (patchBody mipId)] → 
                ∀ s ∈ bodyIds c.body,
                roleId = some s ∨ dtId = some s ∨ locId = some s ∨ stId = some s ∨
                  nsId = some s ∨ ∃ j, n ≤ j ∧ env j = .ok (some s) := by
              intro hc2
              simp only [List.mem_cons, List.mem_append, List.not_mem_nil, or_false,
                or_assoc] at hc2
              rcases hc2 with rfl | hc2 | rfl | rfl | rfl | rfl
              · exact hdev
              · exact hics c hc2
              · exact hmip
              · exact hmintf
              · exact hmm
              · exact hpc
            cases h5 : env (n1 + 3) with
            | err =>
              simp only [h5] at hc
              exact hfin hc
            | ok r4 =>
              simp only [h5] at hc
              exact hfin hc

theorem stageNodes_ids (env : Env) (roleId dtId locId stId nsId : Option String) :
    ∀ (nodes : List (String × NodeRec)) (n : Nat),
      (∀ p ∈ nodes, cleanRec p.2) →
      ∀ c ∈ (stageNodes env roleId dtId locId stId nsId n nodes).1,
        ∀ s ∈ bodyIds c.body,
          roleId = some s ∨ dtId = some s ∨ locId = some s ∨ stId = some s ∨
            nsId = some s ∨ ∃ j, n ≤ j ∧ env j = .ok (some s)
  | [], _, _, c, hc => absurd hc (List.not_mem_nil c)
  | (node, nd) :: rest, n, hcl, c, hc => by
    unfold stageNodes at hc
    rcases hpn : processNode env roleId dtId locId stId nsId n node nd with
      ⟨cs, n1, okf⟩
    have hsh := processNode_shape env roleId dtId locId stId nsId n node nd
    rw [hpn] at hsh
    have hids := processNode_ids env roleId dtId locId stId nsId n node nd
      (hcl (node, nd) (List.mem_cons_self (node, nd) rest))
    rw [hpn] at hids
    cases okf with
    | false =>
      simp only [hpn] at hc
      exact hids c hc
    | true =>
      simp only [hpn] at hc
      rcases List.mem_append.mp hc with hc | hc
      · exact hids c hc
      · intro s hs
        have hn1 : n1 = n + cs.length := hsh.1
        have h := stageNodes_ids env roleId dtId locId stId nsId rest n1
          (fun p hp => hcl p (List.mem_cons_of_mem (node, nd) hp)) c hc s hs
        have hshift : (∃ j, n1 ≤ j ∧ env j = .ok (some s)) →
            ∃ j, n ≤ j ∧ env j = .ok (some s) := by
          intro hj
          rcases hj with ⟨j, hj1, hj2⟩
          exact ⟨j, by omega, hj2⟩
        exact or_shift6 h hshift

theorem stageNodes_patch_src (env : Env)
    (roleId dtId locId stId nsId : Option String) :
    ∀ (nodes : List (String × NodeRec)) (n : Nat) (c : CallRec),
      c ∈ (stageNodes env roleId dtId locId stId nsId n nodes).1 →
      c.method = "PATCH" →
      ∃ j os, n ≤ j ∧ env j = .ok os ∧ c.path = devPatchPath (pyOptStr os)
  | [], _, c, hc, _ => absurd hc (List.not_mem_nil c)
  | (node, nd) :: rest, n, c, hc, hm => by
    unfold stageNodes at hc
    rcases hpn : processNode env roleId dtId locId stId nsId n node nd with
      ⟨cs, n1, okf⟩
    have hsh := processNode_shape env roleId dtId locId stId nsId n node nd
    rw [hpn] at hsh
    have hn1 : n1 = n + cs.length := hsh.1
    have hseg : c ∈ cs →
        ∃ j os, n ≤ j ∧ env j = .ok os ∧ c.path = devPatchPath (pyOptStr os) := by
      intro hcs
      rcases hsh.2 with ⟨posts, pp, hcseq, hposts, hpp⟩
      have hcseq2 : cs = posts ++ pp := hcseq
      rw [hcseq2] at hcs
      rcases List.mem_append.mp hcs with hcs | hcs
      · have h1 := hposts c hcs
        rw [hm] at h1
        exact absurd h1 (by decide)
      · rcases hpp with rfl | ⟨os, b, hos, rfl⟩
        · exact absurd hcs (List.not_mem_nil c)
        · rcases List.mem_cons.mp hcs with rfl | hcs
          · exact ⟨n, os, Nat.le_refl n, hos, rfl⟩
          · exact absurd hcs (List.not_mem_nil c)
    cases okf with
    | false =>
      simp only [hpn] at hc
      exact hseg hc
    | true =>
      simp only [hpn] at hc
      rcases List.mem_append.mp hc with hc | hc
      · exact hseg hc
      · rcases stageNodes_patch_src env roleId dtId locId stId nsId rest n1 c hc hm
          with ⟨j, os, hj, hje, hp⟩
        exact ⟨j, os, by omega, hje, hp⟩

theorem stagePfx_len (env : Env) (nsId stId : Option String) :
    ∀ (l : List NodeRec) (n : Nat),
      (stagePfx env nsId stId n l).2.1 = n + (stagePfx env nsId stId n l).1.length
  | [], n => by simp [stagePfx]
  | pd :: rest, n => by
    unfold stagePfx
    cases h1 : PyDict.find? pd "prefix" with
    | none =>
      cases h2 : PyDict.find? pd "name" with
      | none => simp only [h1, h2]; simp
      | some nm => simp only [h1, h2]; simp
    | some cidr =>
      cases h2 : PyDict.find? pd "name" with
      | none => simp only [h1, h2]; simp
      | some nm =>
        simp only [h1, h2]
        cases h3 : env n with
        | err => simp only [h3]; simp
        | ok r =>
          simp only [h3, List.length_cons]
          have ih := stagePfx_len env nsId stId rest (n + 1)
          omega

theorem devPatchPath_inj {a b : String} (h : devPatchPath a = devPatchPath b) :
    a = b := by
  unfold devPatchPath at h
  exact string_append_left_inj "/api/dcim/devices/" (string_append_right_inj "/" h)

theorem devPatchPath_get10 (s : String) :
    (devPatchPath s).data.get? 10 = some 'd' := by
  have h : (devPatchPath s).data
      = "/api/dcim/devices/".data ++ (s.data ++ "/".data) := by
    unfold devPatchPath
    simp [String.data_append]
  rw [h, List.get?_append (by decide)]
  decide

theorem devices_ne_devPatchPath (d : String) :
    "/api/dcim/devices/" ≠ devPatchPath d := by
  intro h
  have hd : ("/api/dcim/devices/" : String).data.length
      = (devPatchPath d).data.length := congrArg (fun s => s.data.length) h
  have he : (devPatchPath d).data
      = "/api/dcim/devices/".data ++ d.data ++ ['/'] := by
    have h1 : ("/" : String).data = ['/'] := rfl
    unfold devPatchPath
    rw [String.data_append, String.data_append, h1]
  rw [he] at hd
  simp only [List.length_append, List.length_cons, List.length_nil] at hd
  omega

theorem ipaddr_ne_devPatchPath (d : String) :
    "/api/ipam/ip-addresses/" ≠ devPatchPath d := by
  intro h
  have h5 := devPatchPath_get5 d
  rw [← h] at h5
  exact absurd h5 (by decide)

theorem intf_ne_devPatchPath (d : String) :
    "/api/dcim/interfaces/" ≠ devPatchPath d := by
  intro h
  have h10 := devPatchPath_get10 d
  rw [← h] at h10
  exact absurd h10 (by decide)

theorem iptointf_ne_devPatchPath (d : String) :
    "/api/ipam/ip-address-to-interface/" ≠ devPatchPath d := by
  intro h
  have h5 := devPatchPath_get5 d
  rw [← h] at h5
  exact absurd h5 (by decide)


theorem stageNodes_patch_last (env : Env)
    (roleId dtId locId stId nsId : Option String)
    (hinj : ∀ i j s, env i = .ok (some s) → env j = .ok (some s) → i = j)
    (hsome : ∀ i, env i ≠ .ok none) :
    ∀ (nodes : List (String × NodeRec)) (n : Nat),
      (∀ p ∈ nodes, cleanRec p.2) →
      (∀ x ∈ [roleId, dtId, locId, stId, nsId], ∀ s, x = some s →
        ∃ j, j < n ∧ env j = .ok (some s)) →
      ∀ (p q : Nat) (c c2 : CallRec) (d : String),
        (stageNodes env roleId dtId locId stId nsId n nodes).1.get? p = some c →
        c.method = "PATCH" → c.path = devPatchPath d → p < q →
        (stageNodes env roleId dtId locId stId nsId n nodes).1.get? q = some c2 →
        ¬ (d ∈ bodyIds c2.body ∨ c2.path = devPatchPath d)
  | [], n, _, _, p, q, c, c2, d, hp, _, _, _, _ => by
    unfold stageNodes at hp
    exact absurd (List.get?_mem hp) (List.not_mem_nil c)
  | (node, nd) :: rest, n, hcl, hpar, p, q, c, c2, d, hp, hm, hpath, hpq, hq => by
    unfold stageNodes at hp hq
    rcases hpn : processNode env roleId dtId locId stId nsId n node nd with
      ⟨cs, n1, okf⟩
    have hsh := processNode_shape env roleId dtId locId stId nsId n node nd
    rw [hpn] at hsh
    have hn1 : n1 = n + cs.length := hsh.1
    rcases hsh.2 with ⟨posts, pp, hcseq0, hposts, hpp⟩
    have hcseq : cs = posts ++ pp := hcseq0
    have hseg : ∀ pi ci, cs.get? pi = some ci → ci.method = "PATCH" →
        pi + 1 = cs.length ∧
        ∃ s0, env n = .ok (some s0) ∧ ci.path = devPatchPath s0 := by
      intro pi ci hpi hmi
      rcases List.get?_eq_some.mp hpi with ⟨hlt, -⟩
      by_cases hplt : pi < posts.length
      · rw [hcseq, List.get?_append hplt] at hpi
        have h1 := hposts ci (List.get?_mem hpi)
        rw [hmi] at h1
        exact absurd h1 (by decide)
      · push_neg at hplt
        rcases hpp with rfl | ⟨os, b, hos, rfl⟩
        · rw [hcseq, List.append_nil] at hlt
          omega
        · have hlen2 : cs.length = posts.length + 1 := by
            rw [hcseq]
            simp
          have hpieq : pi = posts.length := by omega
          refine ⟨by omega, ?_⟩
          rw [hcseq, hpieq,
            List.get?_append_right (Nat.le_refl posts.length)] at hpi
          simp only [Nat.sub_self, List.get?] at hpi
          injection hpi with hci
          cases os with
          | none => exact absurd hos (hsome n)
          | some s0 =>
            refine ⟨s0, hos, ?_⟩
            subst hci
            rfl
    cases okf with
    | false =>
      simp only [hpn] at hp hq
      rcases hseg p c hp hm with ⟨hlast, -⟩
      rcases List.get?_eq_some.mp hq with ⟨hqlt, -⟩
      omega
    | true =>
      simp only [hpn] at hp hq
      by_cases hplt : p < cs.length
      · rw [List.get?_append hplt] at hp
        rcases hseg p c hp hm with ⟨hlast, s0, hs0, hcpath⟩
        have hd : d = s0 := by
          rw [hpath] at hcpath
          exact devPatchPath_inj hcpath
        have hs0d : env n = .ok (some d) := by
          rw [hd]
          exact hs0
        rw [List.get?_append_right (by omega)] at hq
        have hc2mem : c2 ∈ (stageNodes env roleId dtId locId stId nsId n1 rest).1 :=
          List.get?_mem hq
        intro href
        rcases href with href | href
        · rcases stageNodes_ids env roleId dtId locId stId nsId rest n1
              (fun pr hpr => hcl pr (List.mem_cons_of_mem (node, nd) hpr))
              c2 hc2mem d href with h | h | h | h | h | ⟨j, hj, hje⟩
          · rcases hpar roleId (by simp) d h with ⟨j, hjlt, hje⟩
            have := hinj j n d hje hs0d
            omega
          · rcases hpar dtId (by simp) d h with ⟨j, hjlt, hje⟩
            have := hinj j n d hje hs0d
            omega
          · rcases hpar locId (by simp) d h with ⟨j, hjlt, hje⟩
            have := hinj j n d hje hs0d
            omega
          · rcases hpar stId (by simp) d h with ⟨j, hjlt, hje⟩
            have := hinj j n d hje hs0d
            omega
          · rcases hpar nsId (by simp) d h with ⟨j, hjlt, hje⟩
            have := hinj j n d hje hs0d
            omega
          · have := hinj j n d hje hs0d
            omega
        · rcases (stageNodes_spec env roleId dtId locId stId nsId rest n1 c2
              hc2mem).2 with ⟨hm2, hp2⟩ | ⟨hm2, s2, hp2⟩
          · rw [href] at hp2
            simp only [nodePaths, intfPaths, List.mem_cons, List.not_mem_nil,
              or_false] at hp2
            rcases hp2 with h | h | h | h
            · exact devices_ne_devPatchPath d h.symm
            · exact ipaddr_ne_devPatchPath d h.symm
            · exact intf_ne_devPatchPath d h.symm
            · exact iptointf_ne_devPatchPath d h.symm
          · rcases stageNodes_patch_src env roleId dtId locId stId nsId rest n1 c2
              hc2mem hm2 with ⟨j, os2, hj, hje2, hp3⟩
            cases os2 with
            | none => exact absurd hje2 (hsome j)
            | some s2p =>
              rw [href] at hp3
              have hs2 : d = s2p := devPatchPath_inj hp3
              have hjd : env j = .ok (some d) := by
                rw [hs2]
                exact hje2
              have := hinj j n d hjd hs0d
              omega
      · push_neg at hplt
        rw [List.get?_append_right hplt] at hp
        rw [List.get?_append_right (by omega)] at hq
        exact stageNodes_patch_last env roleId dtId locId stId nsId hinj hsome rest n1
          (fun pr hpr => hcl pr (List.mem_cons_of_mem (node, nd) hpr))
          (fun x hx s hxs => by
            rcases hpar x hx s hxs with ⟨j, hjlt, hje⟩
            exact ⟨j, by omega, hje⟩)
          (p - cs.length) (q - cs.length) c c2 d hp hm hpath (by omega) hq

theorem cleanRec_setKey {d : NodeRec} {k : String} {v : JVal}
    (hd : cleanRec d) (hv : bodyIds v = []) : cleanRec (PyDict.setKey d k v) := by
  intro p hp
  unfold PyDict.setKey at hp
  by_cases hck : PyDict.containsKey d k
  · rw [if_pos hck] at hp
    rcases List.mem_map.mp hp with ⟨p0, hp0, hpe⟩
    by_cases h0 : p0.1 == k
    · rw [if_pos h0] at hpe
      rw [← hpe]
      exact hv
    · rw [if_neg h0] at hpe
      rw [← hpe]
      exact hd p0 hp0
  · rw [if_neg hck] at hp
    rcases List.mem_append.mp hp with hp | hp
    · exact hd p hp
    · rcases List.mem_cons.mp hp with rfl | hp
      · exact hv
      · exact absurd hp (List.not_mem_nil p)

theorem cleanRec_update : ∀ (o d : NodeRec), cleanRec d → cleanRec o →
    cleanRec (PyDict.update d o)
  | [], _, hd, _ => hd
  | pr :: rest, d, hd, ho =>
    cleanRec_update rest (PyDict.setKey d pr.1 pr.2)
      (cleanRec_setKey hd (ho pr (List.mem_cons_self pr rest)))
      (fun p hp => ho p (List.mem_cons_of_mem pr hp))

theorem clean_adjustNode {t : List (String × NodeRec)} {k : String} {v : NodeRec}
    (ht : ∀ p ∈ t, cleanRec p.2) (hv : cleanRec v) :
    ∀ p ∈ adjustNode t k v, cleanRec p.2 := by
  intro p hp
  unfold adjustNode at hp
  rcases List.mem_map.mp hp with ⟨p0, hp0, hpe⟩
  by_cases h0 : p0.1 == k
  · rw [if_pos h0] at hpe
    rw [← hpe]
    exact cleanRec_update v p0.2 (ht p0 hp0) hv
  · rw [if_neg h0] at hpe
    rw [← hpe]
    exact ht p0 hp0

theorem clean_mergeNodes : ∀ (o t : List (String × NodeRec)),
    (∀ p ∈ t, cleanRec p.2) → (∀ p ∈ o, cleanRec p.2) →
    ∀ p ∈ (mergeNodes t o).1, cleanRec p.2
  | [], _, ht, _ => ht
  | (k, v) :: rest, t, ht, ho => by
    unfold mergeNodes
    by_cases hck : PyDict.containsKey t k
    · rw [if_pos hck]
      exact clean_mergeNodes rest (adjustNode t k v)
        (clean_adjustNode ht (ho (k, v) (List.mem_cons_self (k, v) rest)))
        (fun pr hpr => ho pr (List.mem_cons_of_mem (k, v) hpr))
    · rw [if_neg hck]
      exact clean_mergeNodes rest t ht
        (fun pr hpr => ho pr (List.mem_cons_of_mem (k, v) hpr))

theorem mkCall_post_method (p : String) (b : JVal) :
    (mkCall "post" p b).method = "POST" := rfl

/-- C3: the PATCH to /api/dcim/devices/{id}/ that sets a device's primary
IPv4 address is the last call in the run's call sequence that references
that device's id: under an environment whose responses carry pairwise
distinct ids, with documents that embed no raw "id" fields, every call
issued after the PATCH neither mentions the device's id in its JSON body
nor targets that device's PATCH URL. -/
theorem device_patch_last_reference (env : Env) (topo : TopologyDoc)
    (extra : ExtraVarsDoc)
    (hinj : ∀ i j s, env i = .ok (some s) → env j = .ok (some s) → i = j)
    (hsome : ∀ i, env i ≠ .ok none)
    (hcleanT : ∀ pr ∈ topo.nodes, cleanRec pr.2)
    (hcleanE : ∀ pr ∈ extra.nodes, cleanRec pr.2)
    (p q : Nat) (c c2 : CallRec) (d : String)
    (hp : (utils_load_nautobot_data env topo extra).1.get? p = some c)
    (hm : c.method = "PATCH") (hpath : c.path = devPatchPath d)
    (hpq : p < q)
    (hq : (utils_load_nautobot_data env topo extra).1.get? q = some c2) :
    ¬ (d ∈ bodyIds c2.body ∨ c2.path = devPatchPath d) := by
  unfold utils_load_nautobot_data at hp hq
  cases he0 : env 0 with
  | err =>
    simp only [he0] at hp
    have hcm := List.get?_mem hp
    simp only [List.mem_cons, List.not_mem_nil, or_false] at hcm
    subst hcm
    rw [mkCall_post_method] at hm
    exact absurd hm (by decide)
  | ok r0 =>
  simp only [he0] at hp hq
  cases he1 : env 1 with
  | err =>
    simp only [he1] at hp
    have hcm := List.get?_mem hp
    simp only [List.mem_cons, List.not_mem_nil, or_false] at hcm
    rcases hcm with rfl | rfl <;>
      · rw [mkCall_post_method] at hm
        exact absurd hm (by decide)
  | ok r1 =>
  simp only [he1] at hp hq
  cases he2 : env 2 with
  | err =>
    simp only [he2] at hp
    have hcm := List.get?_mem hp
    simp only [List.mem_cons, List.not_mem_nil, or_false] at hcm
    rcases hcm with rfl | rfl | rfl <;>
      · rw [mkCall_post_method] at hm
        exact absurd hm (by decide)
  | ok r2 =>
  simp only [he2] at hp hq
  cases he3 : env 3 with
  | err =>
    simp only [he3] at hp
    have hcm := List.get?_mem hp
    simp only [List.mem_cons, List.not_mem_nil, or_false] at hcm
    rcases hcm with rfl | rfl | rfl | rfl <;>
      · rw [mkCall_post_method] at hm
        exact absurd hm (by decide)
  | ok r3 =>
  simp only [he3] at hp hq
  cases he4 : env 4 with
  | err =>
    simp only [he4] at hp
    have hcm := List.get?_mem hp
    simp only [List.mem_cons, List.not_mem_nil, or_false] at hcm
    rcases hcm with rfl | rfl | rfl | rfl | rfl <;>
      · rw [mkCall_post_method] at hm
        exact absurd hm (by decide)
  | ok r4 =>
  simp only [he4] at hp hq
  cases he5 : env 5 with
  | err =>
    simp only [he5] at hp
    have hcm := List.get?_mem hp
    simp only [List.mem_cons, List.not_mem_nil, or_false] at hcm
    rcases hcm with rfl | rfl | rfl | rfl | rfl | rfl <;>
      · rw [mkCall_post_method] at hm
        exact absurd hm (by decide)
  | ok r5 =>
  simp only [he5] at hp hq
  cases he6 : env 6 with
  | err =>
    simp only [he6] at hp
    have hcm := List.get?_mem hp
    simp only [List.mem_cons, List.not_mem_nil, or_false] at hcm
    rcases hcm with rfl | rfl | rfl | rfl | rfl | rfl | rfl <;>
      · rw [mkCall_post_method] at hm
        exact absurd hm (by decide)
  | ok r6 =>
  simp only [he6] at hp hq
  cases he7 : env 7 with
  | err =>
    simp only [he7] at hp
    have hcm := List.get?_mem hp
    simp only [List.mem_cons, List.not_mem_nil, or_false] at hcm
    rcases hcm with rfl | rfl | rfl | rfl | rfl | rfl | rfl | rfl <;>
      · rw [mkCall_post_method] at hm
        exact absurd hm (by decide)
  | ok r7 =>
  simp only [he7] at hp hq
  rcases hsp : stagePfx env r7 r4 8 extra.prefixes with ⟨pcs, n1, okp⟩
  have hpcs : ∀ c3 ∈ pcs, c3.method = "POST" := by
    intro c3 hc3
    obtain ⟨hmm, -, -⟩ := stagePfx_spec env r7 r4 extra.prefixes 8 c3
      (by rw [hsp]; exact hc3)
    exact hmm
  cases okp with
  | false =>
    simp only [hsp] at hp
    have hcm := List.get?_mem hp
    simp only [List.mem_append, List.mem_cons, List.not_mem_nil, or_false,
      or_assoc] at hcm
    rcases hcm with rfl | rfl | rfl | rfl | rfl | rfl | rfl | rfl | hcm
    · rw [mkCall_post_method] at hm; exact absurd hm (by decide)
    · rw [mkCall_post_method] at hm; exact absurd hm (by decide)
    · rw [mkCall_post_method] at hm; exact absurd hm (by decide)
    · rw [mkCall_post_method] at hm; exact absurd hm (by decide)
    · rw [mkCall_post_method] at hm; exact absurd hm (by decide)
    · rw [mkCall_post_method] at hm; exact absurd hm (by decide)
    · rw [mkCall_post_method] at hm; exact absurd hm (by decide)
    · rw [mkCall_post_method] at hm; exact absurd hm (by decide)
    · have h1 := hpcs c hcm
      rw [hm] at h1
      exact absurd h1 (by decide)
  | true =>
    simp only [hsp] at hp hq
    have hn1 : n1 = 8 + pcs.length := by
      have h := stagePfx_len env r7 r4 extra.prefixes 8
      rw [hsp] at h
      exact h
    cases hem : env n1 with
    | err =>
      simp only [hem] at hp
      have hcm := List.get?_mem hp
      simp only [List.mem_append, List.mem_cons, List.not_mem_nil, or_false,
        or_assoc] at hcm
      rcases hcm with rfl | rfl | rfl | rfl | rfl | rfl | rfl | rfl | hcm | rfl
      · rw [mkCall_post_method] at hm; exact absurd hm (by decide)
      · rw [mkCall_post_method] at hm; exact absurd hm (by decide)
      · rw [mkCall_post_method] at hm; exact absurd hm (by decide)
      · rw [mkCall_post_method] at hm; exact absurd hm (by decide)
      · rw [mkCall_post_method] at hm; exact absurd hm (by decide)
      · rw [mkCall_post_method] at hm; exact absurd hm (by decide)
      · rw [mkCall_post_method] at hm; exact absurd hm (by decide)
      · rw [mkCall_post_method] at hm; exact absurd hm (by decide)
      · have h1 := hpcs c hcm
        rw [hm] at h1
        exact absurd h1 (by decide)
      · rw [mkCall_post_method] at hm; exact absurd hm (by decide)
    | ok rm =>
      simp only [hem] at hp hq
      have h8p : 8 ≤ p := by
        by_contra hlt
        push_neg at hlt
        interval_cases p <;>
          · simp only [List.cons_append, List.get?] at hp
            injection hp with hpc
            subst hpc
            rw [mkCall_post_method] at hm
            exact absurd hm (by decide)
      obtain ⟨kp, rfl⟩ : ∃ kp, p = kp + 8 := ⟨p - 8, by omega⟩
      obtain ⟨kq, rfl⟩ : ∃ kq, q = kq + 8 := ⟨q - 8, by omega⟩
      have hp2 : (pcs ++ mkCall "post" "/api/ipam/prefixes/"
          (mgmtPrefixBody topo r7 r4)
          :: (stageNodes env r0 r2 r6 r4 r7 (n1 + 1)
            (mergeNodes topo.nodes extra.nodes).1).1).get? kp = some c := hp
      have hq2 : (pcs ++ mkCall "post" "/api/ipam/prefixes/"
          (mgmtPrefixBody topo r7 r4)
          :: (stageNodes env r0 r2 r6 r4 r7 (n1 + 1)
            (mergeNodes topo.nodes extra.nodes).1).1).get? kq = some c2 := hq
      have hplen : ¬ kp < pcs.length := by
        intro hlt
        rw [List.get?_append hlt] at hp2
        have h1 := hpcs c (List.get?_mem hp2)
        rw [hm] at h1
        exact absurd h1 (by decide)
      push_neg at hplen
      rw [List.get?_append_right hplen] at hp2
      rw [List.get?_append_right (by omega)] at hq2
      cases hk : kp - pcs.length with
      | zero =>
        rw [hk] at hp2
        simp only [List.get?] at hp2
        injection hp2 with hpc
        subst hpc
        rw [mkCall_post_method] at hm
        exact absurd hm (by decide)
      | succ k =>
        rw [hk] at hp2
        simp only [List.get?] at hp2
        cases hk2 : kq - pcs.length with
        | zero => omega
        | succ k2 =>
          rw [hk2] at hq2
          simp only [List.get?] at hq2
          exact stageNodes_patch_last env r0 r2 r6 r4 r7 hinj hsome
            ((mergeNodes topo.nodes extra.nodes).1) (n1 + 1)
            (clean_mergeNodes extra.nodes topo.nodes hcleanT hcleanE)
            (fun x hx s hxs => by
              simp only [List.mem_cons, List.not_mem_nil, or_false] at hx
              rcases hx with rfl | rfl | rfl | rfl | rfl
              · exact ⟨0, by omega, by rw [hxs] at he0; exact he0⟩
              · exact ⟨2, by omega, by rw [hxs] at he2; exact he2⟩
              · exact ⟨6, by omega, by rw [hxs] at he6; exact he6⟩
              · exact ⟨4, by omega, by rw [hxs] at he4; exact he4⟩
              · exact ⟨7, by omega, by rw [hxs] at he7; exact he7⟩)
            k k2 c c2 d hp2 hm hpath (by omega) hq2

/-- An environment whose responses carry pairwise distinct ids: call i
returns the id made of i+1 copies of 'a'. -/
def envInjEx : Env :=
  fun i => Outcome.ok (some (String.mk (List.replicate (i + 1) 'a')))

theorem envInjEx_inj : ∀ i j s, envInjEx i = .ok (some s) →
    envInjEx j = .ok (some s) → i = j := by
  intro i j s hi hj
  simp only [envInjEx] at hi hj
  injection hi with hi1
  injection hi1 with hi2
  injection hj with hj1
  injection hj1 with hj2
  have h1 : List.replicate (i + 1) 'a' = List.replicate (j + 1) 'a' :=
    congrArg String.data (hi2.trans hj2.symm)
  have h2 := congrArg List.length h1
  simp only [List.length_replicate] at h2
  omega

theorem envInjEx_some : ∀ i, envInjEx i ≠ .ok none := by
  intro i h
  simp only [envInjEx] at h
  injection h with h1
  exact Option.noConfusion h1

/-- Primary document for the last-reference witness: two nodes without
declared interfaces. -/
def c3TopoEx : TopologyDoc :=
  ⟨[("ipv4-subnet", JVal.jstr "172.20.20.0/24")],
   [("r1", [("kind", JVal.jstr "ceos")]), ("r2", [("kind", JVal.jstr "ceos")])]⟩

/-- Overrides document for the last-reference witness: nothing to merge,
no prefix entries. -/
def c3ExtraEx : ExtraVarsDoc := ⟨[], []⟩

theorem c3TopoEx_clean : ∀ pr ∈ c3TopoEx.nodes, cleanRec pr.2 := by
  intro pr hpr
  simp only [c3TopoEx, List.mem_cons, List.not_mem_nil, or_false] at hpr
  rcases hpr with rfl | rfl <;>
    · intro p hp
      simp only [List.mem_cons, List.not_mem_nil, or_false] at hp
      subst hp
      rfl

theorem c3ExtraEx_clean : ∀ pr ∈ c3ExtraEx.nodes, cleanRec pr.2 := by
  intro pr hpr
  exact absurd hpr (List.not_mem_nil pr)

/-- Witness for device_patch_last_reference: in the concrete run the first
device's primary-address PATCH sits at position 13 and the call at
position 14 (the second device's POST) references neither that device's
id nor its PATCH URL. -/
theorem device_patch_last_reference_witness :
    ¬ (String.mk (List.replicate 10 'a')
        ∈ bodyIds (((utils_load_nautobot_data envInjEx c3TopoEx c3ExtraEx).1.get? 14).getD
          (mkCall "post" "" JVal.jnull)).body
      ∨ (((utils_load_nautobot_data envInjEx c3TopoEx c3ExtraEx).1.get? 14).getD
          (mkCall "post" "" JVal.jnull)).path
        = devPatchPath (String.mk (List.replicate 10 'a'))) :=
  device_patch_last_reference envInjEx c3TopoEx c3ExtraEx
    envInjEx_inj envInjEx_some c3TopoEx_clean c3ExtraEx_clean
    13 14
    (((utils_load_nautobot_data envInjEx c3TopoEx c3ExtraEx).1.get? 13).getD
      (mkCall "post" "" JVal.jnull))
    (((utils_load_nautobot_data envInjEx c3TopoEx c3ExtraEx).1.get? 14).getD
      (mkCall "post" "" JVal.jnull))
    (String.mk (List.replicate 10 'a'))
    rfl rfl rfl (by decide) rfl
